import Mathlib

/-!
Verification of the SBIS format resolution engine of Wasaby.Data
(src/Types/_entity/adapter/SbisFormatController.ts).

The payload is a JSON-like tree of arrays and record/table objects; a
carrier object may declare a format inline (field s), refer to one by
integer id (field f) and hold nested data (field d).  The controller
resolves an id to its first-declared structure by a lazily driven
depth-first traversal, caching every declaration it passes.

Everything below is a shallow embedding of that file: each definition is
annotated with the source lines it models.
-/

/-- IFieldFormat (element of a structure literal): opaque to this
subsystem beyond being a copyable value; we model just a field name. -/
structure IFieldFormat where
  n : String
deriving DecidableEq, Repr

/-- IFieldFormat[], a structure (format) literal. -/
abbrev FormatList := List IFieldFormat

/-- A JSON-like payload node.  A carrier (IRecordFormat or ITableFormat)
is an object with an optional integer back-reference f, an optional
inline structure s and optional nested data d; arrays hold further
nodes; prim stands for every other JavaScript value (number, string,
boolean, null, undefined), which the traversal never descends into.
An absent or falsy d is modelled as none, matching the source guards
(line 31 and line 216: nested data is visited only when truthy); a
present s is always truthy in the source (it is an array, and arrays
are truthy in JavaScript, even empty ones), so Option faithfully
captures the guard at line 205. -/
inductive Node where
  | arr (items : List Node)
  | obj (f : Option Nat) (s : Option FormatList) (d : Option Node)
  | prim
deriving Repr

/-- The cache (a shim Map from format id to field list), modelled as an
association list in which a later set shadows earlier entries. -/
abbrev Storage := List (Nat × FormatList)

/-- Map.prototype.get: the most recently set binding of a key. -/
def cacheFind : Storage → Nat → Option FormatList
  | [], _ => none
  | (k, v) :: rest, n => if k = n then some v else cacheFind rest n

/-- Map.prototype.has. -/
def cacheHas (st : Storage) (n : Nat) : Bool :=
  (cacheFind st n).isSome

/-- Map.prototype.set. -/
def cacheSet (st : Storage) (n : Nat) (v : FormatList) : Storage :=
  (n, v) :: st

mutual

/-- The format declarations of a payload in document order (outer to
inner, left to right): the (f, s) pairs of every carrier having both a
defined f and a (truthy) inline s - exactly the pairs the traversal may
record into the cache at line 206. -/
def Node.formatEntries : Node → List (Nat × FormatList)
  | .prim => []
  | .arr items => Node.formatEntriesList items
  | .obj f s d =>
    (match f, s with
     | some n, some fmt => [(n, fmt)]
     | _, _ => []) ++
    (match d with
     | some dn => Node.formatEntries dn
     | none => [])

/-- Document-order format declarations of a list of sibling nodes. -/
def Node.formatEntriesList : List Node → List (Nat × FormatList)
  | [] => []
  | n :: ns => Node.formatEntries n ++ Node.formatEntriesList ns

end

mutual

/-- eachFormatEntry (lines 21-35): the carriers (objects with s or f
defined) met by the recursion, in visit order, as (f, s) pairs.  The
source invokes a callback on each carrier; we return the visit list. -/
def eachFormatEntry : Node → List (Option Nat × Option FormatList)
  | .prim => []
  | .arr items => eachFormatEntryList items
  | .obj f s d =>
    (if s.isSome || f.isSome then [(f, s)] else []) ++
    (match d with
     | some dn => eachFormatEntry dn
     | none => [])

/-- eachFormatEntry over the elements of an array, left to right. -/
def eachFormatEntryList : List Node → List (Option Nat × Option FormatList)
  | [] => []
  | n :: ns => eachFormatEntry n ++ eachFormatEntryList ns

end

mutual

/-- Structural size of a node, used to bound the work of the traversal
loop. -/
def Node.size : Node → Nat
  | .prim => 1
  | .arr items => 2 + Node.sizeList items
  | .obj _ _ none => 3
  | .obj _ _ (some dn) => 3 + Node.size dn

/-- Total size of a list of sibling nodes. -/
def Node.sizeList : List Node → Nat
  | [] => 0
  | n :: ns => Node.size n + Node.sizeList ns

end

/-- A traversal wrapper node: RecursiveIterator pushes plain wrapper
objects holding the data (lines 143, 189, 217) to which it lazily
attaches an array iterator (line 176) and a completed flag (lines 221,
230).  cursor is IteratorArray.currentIndex plus one, i.e. the number of
items already pulled from the array. -/
structure Frame where
  data : Node
  cursor : Nat := 0
  completed : Bool := false
deriving Repr

/-- The RecursiveStack contents, top first.  The source stores the
nodes in a shim Map keyed by the counter processableId (lines 82-128);
push, pop and currentNode use it exactly as a LIFO stack, and
processableId below zero means the stack is empty. -/
abbrev Stack := List Frame

/-- Remaining work held by one stack frame. -/
def frameWeight (fr : Frame) : Nat :=
  match fr.data with
  | .prim => 1
  | .arr items => 1 + Node.sizeList (items.drop fr.cursor)
  | .obj _ _ d =>
    if fr.completed then 1
    else 2 + (match d with | some dn => dn.size | none => 0)

/-- Remaining work of a whole stack; every traversal step below strictly
decreases it, which bounds the unfueled while-true loop of the source. -/
def stackWeight : Stack → Nat
  | [] => 0
  | fr :: rest => frameWeight fr + stackWeight rest

/-- The while-true loop of RecursiveIterator.next (lines 151-164) fused
with the recursion of RecursiveIterator. _process (lines 171-237), as a
fuel-indexed step function.  The source runs unbounded; the fuel only
makes the loop a total function, and nextGo_fuel below proves that
stackWeight plus one steps always suffice, so no behaviour is cut off.
The recursion of _process is unfolded into the loop: _process recurses
exactly once into each freshly pushed wrapper, so processing the top of
the stack until it yields or pops is the same computation. -/
def nextGo (fuel : Nat) (storage : Storage) (stack : Stack) (id : Option Nat) :
    Option (Option FormatList × Storage × Stack) :=
  match fuel with
  | 0 => none
  | fuel + 1 =>
    match stack with
    -- line 153: processableId below zero, the tree is fully processed
    | [] => some (none, storage, [])
    | fr :: rest =>
      match fr.data with
      -- line 175: the node wraps an array
      | .arr items =>
        if h : fr.cursor < items.length then
          -- line 181: item = node.iterator.next()
          match items[fr.cursor] with
          -- line 188: only objects found in arrays are processed
          | .prim =>
            nextGo fuel storage ({ fr with cursor := fr.cursor + 1 } :: rest) id
          -- lines 189-193: push a wrapper for the item and process it
          | it =>
            nextGo fuel storage
              ({ data := it } :: { fr with cursor := fr.cursor + 1 } :: rest) id
        else
          -- lines 183, 201: the iterator is done, pop the array node
          nextGo fuel storage rest id
      -- line 204: the node wraps an object not yet completed
      | .obj f s d =>
        if fr.completed then
          -- line 235: already completed, pop
          nextGo fuel storage rest id
        else
          match f, s with
          | some n, some fmt =>
            if cacheHas storage n then
              -- the guard at line 205 fails (id already cached):
              -- fall through to the nested data (lines 216-231)
              match d with
              | some dn =>
                nextGo fuel storage
                  ({ data := dn } :: { fr with completed := true } :: rest) id
              | none => nextGo fuel storage rest id
            else
              if id = some n then
                -- lines 206-210: record the format and, as it is the
                -- target, yield it leaving the stack untouched
                some (some fmt, cacheSet storage n fmt, fr :: rest)
              else
                -- line 206 then lines 216-231
                match d with
                | some dn =>
                  nextGo fuel (cacheSet storage n fmt)
                    ({ data := dn } :: { fr with completed := true } :: rest) id
                | none => nextGo fuel (cacheSet storage n fmt) rest id
          | _, _ =>
            -- f undefined or s absent: nothing to record (line 205),
            -- still descend into the nested data (lines 216-231)
            match d with
            | some dn =>
              nextGo fuel storage
                ({ data := dn } :: { fr with completed := true } :: rest) id
            | none => nextGo fuel storage rest id
      -- line 235: neither array nor object, pop
      | .prim => nextGo fuel storage rest id

/-- IResultGenerator (lines 4-7). -/
structure IResultGenerator where
  value : Option FormatList
  done : Bool
deriving DecidableEq, Repr

/-- RecursiveIterator (lines 133-246): the resumable traversal engine;
its whole state is the stack of wrapper nodes. -/
structure RecursiveIterator where
  _stackNodes : Stack
deriving Repr

/-- The constructor (lines 139-144): push a wrapper for the root. -/
def RecursiveIterator.new (data : Node) : RecursiveIterator :=
  { _stackNodes := [{ data := data }] }

/-- RecursiveIterator.next (lines 151-164).  The source loop carries no
fuel; by nextGo_fuel the chosen fuel is always enough, so the fallback
branch is dead code needed only for totality. -/
def RecursiveIterator.next (it : RecursiveIterator) (storage : Storage) (id : Option Nat) :
    IResultGenerator × Storage × RecursiveIterator :=
  match nextGo (stackWeight it._stackNodes + 1) storage it._stackNodes id with
  | some (v, storage', stack') =>
    ({ value := v, done := v.isNone }, storage', { _stackNodes := stack' })
  | none => ({ value := none, done := true }, storage, it)

/-- The ReferenceError thrown at line 298 (could not find format by id). -/
inductive LookupError where
  | couldNotFindFormatById
deriving DecidableEq, Repr

/-- SbisFormatController (lines 251-336).  The field _generator is
declared at line 265 and read by the generator getter, but no statement
in the source ever assigns it, so it keeps the value it had at
construction (undefined) for the whole life of the controller. -/
structure SbisFormatController where
  _cache : Storage
  _data : Node
  _generator : Option RecursiveIterator
deriving Repr

/-- The constructor (lines 271-274). -/
def SbisFormatController.new (data : Node) : SbisFormatController :=
  { _cache := [], _data := data, _generator := none }

/-- _clone (lines 325-327): format.slice(), a fresh array holding the
same elements. -/
def SbisFormatController._clone (format : FormatList) : FormatList :=
  format.take format.length

/-- The generator getter (lines 329-335): returns the stored engine when
present, otherwise builds a new one from the bound payload.  Note that
the freshly built engine is returned without being stored back. -/
def SbisFormatController.generator (c : SbisFormatController) : RecursiveIterator :=
  match c._generator with
  | some g => g
  | none => RecursiveIterator.new c._data

/-- setOriginal (lines 281-283). -/
def SbisFormatController.setOriginal (c : SbisFormatController) (id : Nat)
    (data : FormatList) : SbisFormatController :=
  { c with _cache := cacheSet c._cache id (SbisFormatController._clone data) }

/-- getFormat (lines 290-302).  The Except value models the possible
ReferenceError; the second component is the controller afterwards.  Its
cache is the storage left by the traversal even on failure, because the
source hands this._cache to the engine by reference; the engine object
returned by the generator getter is dropped. -/
def SbisFormatController.getFormat (c : SbisFormatController) (id : Nat)
    (copy : Bool := false) : Except LookupError FormatList × SbisFormatController :=
  match cacheFind c._cache id with
  | some fmt =>
    (.ok (if copy then SbisFormatController._clone fmt else fmt), c)
  | none =>
    let r := (c.generator).next c._cache (some id)
    match r.1.value with
    | none => (.error .couldNotFindFormatById, { c with _cache := r.2.1 })
    | some fmt =>
      (.ok (if copy then SbisFormatController._clone fmt else fmt),
       { c with _cache := r.2.1 })

/-- The guard of scanFormats (line 305): typeof data is the string
object exactly for arrays and objects - and for null, for which the
traversal is a no-op anyway (the wrapper is popped at line 235 without
touching the cache), so folding null into prim does not change any
observable behaviour. -/
def Node.isObjectLike : Node → Bool
  | .arr _ => true
  | .obj _ _ _ => true
  | .prim => false

/-- scanFormats (lines 304-310): a full traversal of the given data (a
brand-new engine, not the controller one) run once with no target id,
purely to populate the cache. -/
def SbisFormatController.scanFormats (c : SbisFormatController) (data : Node) :
    SbisFormatController :=
  if data.isObjectLike then
    let r := (RecursiveIterator.new data).next c._cache none
    { c with _cache := r.2.1 }
  else c

/-- The data getter (lines 312-314). -/
def SbisFormatController.data (c : SbisFormatController) : Node := c._data

mutual

/-- recoverFormats (lines 37-48) fused with the f-deletion pass of
recoverData (lines 318-320) into one document-order pass returning the
rewritten tree.  In the source, the pass mutates the carriers of the
live tree while the controller may be bound to that very tree; the only
mutation a getFormat call issued later in the pass could observe is an s
added to an already visited carrier whose id that earlier getFormat call
left in the cache, and the traversal skips cached ids (guard at line
205, see runSpec_ignores_cached below), so resolving against the
original tree is observationally the same.  The f field is erased on
every carrier, matching the forEach at lines 318-320 which runs after
the whole walk; nothing read by the walk or by the traversals depends on
an f of an already visited carrier, so fusing the phases preserves the
result. -/
def recoverNode (c : SbisFormatController) :
    Node → Except LookupError (Node × SbisFormatController)
  | .prim => .ok (.prim, c)
  | .arr items =>
    match recoverNodeList c items with
    | .ok (items', c') => .ok (.arr items', c')
    | .error e => .error e
  | .obj f s d =>
    -- line 28: the callback fires when s or f is defined
    if s.isSome || f.isSome then
      -- line 41: const s = entry.s or controller.getFormat(entry.f)
      match (match s with
             | some v => (Except.ok v, c)
             | none =>
               match f with
               | some n => c.getFormat n
               -- s and f both absent cannot reach this branch (guard
               -- above); in the source getFormat(undefined) would scan
               -- the whole payload and throw, hence the error value
               | none => (Except.error LookupError.couldNotFindFormatById, c)) with
      | (.error e, _) => .error e
      | (.ok v, c1) =>
        -- lines 42-43 set s on the carrier; lines 318-320 delete f
        match d with
        | some dn =>
          match recoverNode c1 dn with
          | .ok (dn', c2) => .ok (.obj none (some v) (some dn'), c2)
          | .error e => .error e
        | none => .ok (.obj none (some v) none, c1)
    else
      -- not a carrier: only the nested data is visited (line 31)
      match d with
      | some dn =>
        match recoverNode c dn with
        | .ok (dn', c') => .ok (.obj f s (some dn'), c')
        | .error e => .error e
      | none => .ok (.obj f s none, c)

/-- The array branch of eachFormatEntry (lines 22-25) under recovery. -/
def recoverNodeList (c : SbisFormatController) :
    List Node → Except LookupError (List Node × SbisFormatController)
  | [] => .ok ([], c)
  | n :: ns =>
    match recoverNode c n with
    | .ok (n', c') =>
      match recoverNodeList c' ns with
      | .ok (ns', c'') => .ok (n' :: ns', c'')
      | .error e => .error e
    | .error e => .error e

end

/-- recoverData (lines 316-323): defaulting the controller to a fresh
one bound to the payload, then the fused pass above.  The source
returns the payload object itself after mutating it in place; the value
model returns the rewritten tree. -/
def SbisFormatController.recoverData (data : Node)
    (controller : Option SbisFormatController) :
    Except LookupError (Node × SbisFormatController) :=
  recoverNode (controller.getD (SbisFormatController.new data)) data

/-- A sequence of pure lookups, each threading the controller state. -/
def applyGets (c : SbisFormatController) : List Nat → SbisFormatController
  | [] => c
  | i :: rest => applyGets ((c.getFormat i).2) rest

/-- The cache-affecting public operations: lookups and manual seeding. -/
inductive COp where
  | get (id : Nat)
  | seed (id : Nat) (fmt : FormatList)

/-- Run a sequence of public operations against a controller. -/
def applyOps (c : SbisFormatController) : List COp → SbisFormatController
  | [] => c
  | .get i :: rest => applyOps ((c.getFormat i).2) rest
  | .seed i f :: rest => applyOps (c.setOriginal i f) rest

/-- The ids seeded by setOriginal within a sequence of operations. -/
def seedIds : List COp → List Nat
  | [] => []
  | .get _ :: rest => seedIds rest
  | .seed i _ :: rest => i :: seedIds rest

/-- Specification-side replay of one engine call over the list of format
declarations it can still reach, in document order: skip declarations of
already cached ids, record new ones (first declaration wins), stop and
yield as soon as the freshly recorded id is the target.  The theorem
nextGo_eq_runSpec proves the engine computes exactly this. -/
def runSpec (st : Storage) (l : List (Nat × FormatList)) (id : Option Nat) :
    Option FormatList × Storage :=
  match l with
  | [] => (none, st)
  | (n, fmt) :: rest =>
    if cacheHas st n then runSpec st rest id
    else if id = some n then (some fmt, cacheSet st n fmt)
    else runSpec (cacheSet st n fmt) rest id

/-- Format declarations still reachable from one stack frame. -/
def framePending (fr : Frame) : List (Nat × FormatList) :=
  match fr.data with
  | .prim => []
  | .arr items => Node.formatEntriesList (items.drop fr.cursor)
  | .obj f s d =>
    if fr.completed then []
    else
      (match f, s with
       | some n, some fmt => [(n, fmt)]
       | _, _ => []) ++
      (match d with
       | some dn => Node.formatEntries dn
       | none => [])

/-- Format declarations still reachable from a whole stack. -/
def pending : Stack → List (Nat × FormatList)
  | [] => []
  | fr :: rest => framePending fr ++ pending rest

/-- The payload of the concrete scenario in the specification. -/
def demoPayload : Node :=
  .arr [.obj (some 1) (some [⟨"id"⟩])
    (some (.arr [.obj (some 2) (some [⟨"x"⟩]) none, .obj (some 1) none none]))]

example : demoPayload.formatEntries = [(1, [⟨"id"⟩]), (2, [⟨"x"⟩])] := by decide

example :
    ((SbisFormatController.new demoPayload).getFormat 1).1 = .ok [⟨"id"⟩] := rfl

example :
    ((SbisFormatController.new demoPayload).getFormat 3).1 =
      .error .couldNotFindFormatById := rfl

example :
    ((((SbisFormatController.new demoPayload).getFormat 1).2).getFormat 2).1 =
      .ok [⟨"x"⟩] := rfl

theorem cacheFind_set_self (st : Storage) (n : Nat) (v : FormatList) :
    cacheFind (cacheSet st n v) n = some v := by
  simp [cacheFind, cacheSet]

theorem cacheFind_set_ne (st : Storage) (n k : Nat) (v : FormatList) (h : n ≠ k) :
    cacheFind (cacheSet st n v) k = cacheFind st k := by
  simp [cacheFind, cacheSet, h]

theorem cacheHas_set (st : Storage) (n k : Nat) (v : FormatList) :
    cacheHas (cacheSet st n v) k = (n = k || cacheHas st k) := by
  by_cases h : n = k
  · subst h; simp [cacheHas, cacheFind_set_self]
  · simp [cacheHas, cacheFind_set_ne st n k v h, h]

theorem Node.formatEntries_prim : Node.prim.formatEntries = [] := rfl

theorem Node.formatEntries_arr (items : List Node) :
    (Node.arr items).formatEntries = Node.formatEntriesList items := rfl

theorem Node.formatEntries_obj (f : Option Nat) (s : Option FormatList) (d : Option Node) :
    (Node.obj f s d).formatEntries =
      (match f, s with
       | some n, some fmt => [(n, fmt)]
       | _, _ => []) ++
      (match d with
       | some dn => Node.formatEntries dn
       | none => []) := by
  cases f <;> cases s <;> cases d <;> rfl

theorem Node.formatEntriesList_cons (n : Node) (ns : List Node) :
    Node.formatEntriesList (n :: ns) = n.formatEntries ++ Node.formatEntriesList ns := rfl

theorem frameWeight_obj (f : Option Nat) (s : Option FormatList) (d : Option Node)
    (cur : Nat) (b : Bool) :
    frameWeight ⟨Node.obj f s d, cur, b⟩ =
      if b then 1 else 2 + (match d with | some dn => dn.size | none => 0) := by
  cases b <;> simp [frameWeight]

theorem frameWeight_fresh_le (n : Node) : frameWeight { data := n } ≤ n.size := by
  cases n with
  | prim => simp [frameWeight, Node.size]
  | arr items => simp [frameWeight, Node.size, List.drop_zero]
  | obj f s d => cases d <;> simp [frameWeight, Node.size]

theorem Node.size_pos (n : Node) : 1 ≤ n.size := by
  refine (Node.size.mutual_induct (fun n => 1 ≤ n.size) (fun _ => True) ?_ ?_ ?_ ?_ ?_ ?_).1 n
  · simp [Node.size]
  · intro items _; simp [Node.size]; omega
  · intro f s; simp [Node.size]
  · intro f s dn _; simp [Node.size]; omega
  · trivial
  · intro _ _ _ _; trivial

theorem Node.sizeList_drop (items : List Node) (c : Nat) (h : c < items.length) :
    Node.sizeList (items.drop c) = (items[c]).size + Node.sizeList (items.drop (c + 1)) := by
  rw [List.drop_eq_getElem_cons h]; simp [Node.sizeList]

theorem Node.sizeList_drop_nil (items : List Node) (c : Nat) (h : ¬c < items.length) :
    items.drop c = [] :=
  List.drop_eq_nil_of_le (by omega)

theorem Node.formatEntriesList_drop (items : List Node) (c : Nat) (h : c < items.length) :
    Node.formatEntriesList (items.drop c) =
      (items[c]).formatEntries ++ Node.formatEntriesList (items.drop (c + 1)) := by
  rw [List.drop_eq_getElem_cons h]; simp [Node.formatEntriesList]

theorem framePending_prim (cur : Nat) (b : Bool) :
    framePending ⟨Node.prim, cur, b⟩ = [] := rfl

theorem framePending_arr (items : List Node) (cur : Nat) (b : Bool) :
    framePending ⟨Node.arr items, cur, b⟩ =
      Node.formatEntriesList (items.drop cur) := rfl

theorem framePending_obj (f : Option Nat) (s : Option FormatList) (d : Option Node)
    (cur : Nat) (b : Bool) :
    framePending ⟨Node.obj f s d, cur, b⟩ =
      if b then []
      else
        (match f, s with
         | some n, some fmt => [(n, fmt)]
         | _, _ => []) ++
        (match d with
         | some dn => Node.formatEntries dn
         | none => []) := by
  cases b <;> simp [framePending]

theorem framePending_fresh (n : Node) : framePending { data := n } = n.formatEntries := by
  cases n with
  | prim => rfl
  | arr items => simp [framePending_arr, Node.formatEntries_arr, List.drop_zero]
  | obj f s d => simp [framePending_obj, Node.formatEntries_obj]

/-- Each engine call computes exactly the specification-side replay over
the format declarations still reachable from its stack, both in its
yielded value and in the cache it leaves behind; moreover it needs at
most stackWeight many loop steps. -/
theorem nextGo_eq_runSpec :
    ∀ (fuel : Nat) (st : Storage) (stack : Stack) (id : Option Nat),
      stackWeight stack < fuel →
      ∃ stack', nextGo fuel st stack id =
        some ((runSpec st (pending stack) id).1, (runSpec st (pending stack) id).2, stack') := by
  intro fuel
  induction fuel with
  | zero => intro st stack id h; omega
  | succ fuel ih =>
    intro st stack id h
    match stack with
    | [] => exact ⟨[], by simp [nextGo, pending, runSpec]⟩
    | ⟨dat, cur, comp⟩ :: rest =>
      cases dat with
      | prim =>
        have hw : stackWeight rest < fuel := by
          simp [stackWeight, frameWeight] at h; omega
        obtain ⟨stack', hs'⟩ := ih st rest id hw
        refine ⟨stack', ?_⟩
        simpa [nextGo, pending, framePending_prim, framePending_arr, framePending_obj,
                framePending_fresh] using hs'
      | arr items =>
        by_cases hc : cur < items.length
        · have hsz := Node.sizeList_drop items cur hc
          cases hi : items[cur] with
          | prim =>
            have hw : stackWeight (⟨Node.arr items, cur + 1, comp⟩ :: rest) < fuel := by
              simp only [stackWeight, frameWeight] at h ⊢
              rw [hsz, hi] at h
              simp [Node.size] at h; omega
            obtain ⟨stack', hs'⟩ := ih st (⟨Node.arr items, cur + 1, comp⟩ :: rest) id hw
            refine ⟨stack', ?_⟩
            rw [show nextGo (fuel + 1) st (⟨Node.arr items, cur, comp⟩ :: rest) id =
                  nextGo fuel st (⟨Node.arr items, cur + 1, comp⟩ :: rest) id by
                simp [nextGo, hc, hi]]
            rw [hs']
            have hp : pending (⟨Node.arr items, cur, comp⟩ :: rest) =
                pending (⟨Node.arr items, cur + 1, comp⟩ :: rest) := by
              simp [pending, framePending_prim, framePending_arr, framePending_obj,
                framePending_fresh, Node.formatEntriesList_drop items cur hc, hi,
                Node.formatEntries_prim, Node.formatEntries_arr, Node.formatEntries_obj]
            rw [hp]
          | arr its =>
            have hw : stackWeight (⟨Node.arr its, 0, false⟩ ::
                ⟨Node.arr items, cur + 1, comp⟩ :: rest) < fuel := by
              simp only [stackWeight, frameWeight] at h ⊢
              rw [hsz, hi] at h
              simp only [Node.size, List.drop_zero] at h ⊢; omega
            obtain ⟨stack', hs'⟩ := ih st
              (⟨Node.arr its, 0, false⟩ :: ⟨Node.arr items, cur + 1, comp⟩ :: rest) id hw
            refine ⟨stack', ?_⟩
            rw [show nextGo (fuel + 1) st (⟨Node.arr items, cur, comp⟩ :: rest) id =
                  nextGo fuel st (⟨Node.arr its, 0, false⟩ ::
                    ⟨Node.arr items, cur + 1, comp⟩ :: rest) id by
                simp [nextGo, hc, hi]]
            rw [hs']
            have hp : pending (⟨Node.arr items, cur, comp⟩ :: rest) =
                pending (⟨Node.arr its, 0, false⟩ ::
                  ⟨Node.arr items, cur + 1, comp⟩ :: rest) := by
              simp [pending, framePending_prim, framePending_arr, framePending_obj,
                framePending_fresh, Node.formatEntriesList_drop items cur hc, hi,
                Node.formatEntries_prim, Node.formatEntries_arr, Node.formatEntries_obj]
            rw [hp]
          | obj f s d =>
            have hw : stackWeight (⟨Node.obj f s d, 0, false⟩ ::
                ⟨Node.arr items, cur + 1, comp⟩ :: rest) < fuel := by
              simp only [stackWeight, frameWeight] at h ⊢
              rw [hsz, hi] at h
              cases d <;> simp [Node.size] at h ⊢ <;> omega
            obtain ⟨stack', hs'⟩ := ih st
              (⟨Node.obj f s d, 0, false⟩ :: ⟨Node.arr items, cur + 1, comp⟩ :: rest) id hw
            refine ⟨stack', ?_⟩
            rw [show nextGo (fuel + 1) st (⟨Node.arr items, cur, comp⟩ :: rest) id =
                  nextGo fuel st (⟨Node.obj f s d, 0, false⟩ ::
                    ⟨Node.arr items, cur + 1, comp⟩ :: rest) id by
                simp [nextGo, hc, hi]]
            rw [hs']
            have hp : pending (⟨Node.arr items, cur, comp⟩ :: rest) =
                pending (⟨Node.obj f s d, 0, false⟩ ::
                  ⟨Node.arr items, cur + 1, comp⟩ :: rest) := by
              simp [pending, framePending_prim, framePending_arr, framePending_obj,
                framePending_fresh, Node.formatEntriesList_drop items cur hc, hi,
                Node.formatEntries_prim, Node.formatEntries_arr, Node.formatEntries_obj]
            rw [hp]
        · have hw : stackWeight rest < fuel := by
            simp [stackWeight, frameWeight] at h; omega
          obtain ⟨stack', hs'⟩ := ih st rest id hw
          refine ⟨stack', ?_⟩
          rw [show nextGo (fuel + 1) st (⟨Node.arr items, cur, comp⟩ :: rest) id =
                nextGo fuel st rest id by simp [nextGo, hc]]
          rw [hs']
          have hp : pending (⟨Node.arr items, cur, comp⟩ :: rest) = pending rest := by
            simp [pending, framePending_prim, framePending_arr, framePending_obj,
                framePending_fresh, Node.sizeList_drop_nil items cur hc,
              Node.formatEntriesList]
          rw [hp]
      | obj f s d =>
        cases comp with
        | true =>
          have hw : stackWeight rest < fuel := by
            simp [stackWeight, frameWeight] at h; omega
          obtain ⟨stack', hs'⟩ := ih st rest id hw
          refine ⟨stack', ?_⟩
          rw [show nextGo (fuel + 1) st (⟨Node.obj f s d, cur, true⟩ :: rest) id =
                nextGo fuel st rest id by simp [nextGo]]
          rw [hs']
          have hp : pending (⟨Node.obj f s d, cur, true⟩ :: rest) = pending rest := by
            simp [pending, framePending_prim, framePending_arr, framePending_obj,
                framePending_fresh]
          rw [hp]
        | false =>
          have hdw : (match d with
                | some dn => stackWeight (⟨dn, 0, false⟩ ::
                    ⟨Node.obj f s d, cur, true⟩ :: rest)
                | none => stackWeight rest) < fuel := by
            cases d with
            | none =>
              simp only [stackWeight, frameWeight_obj, if_false] at h ⊢
              simp at h
              omega
            | some dn =>
              have hfw := frameWeight_fresh_le dn
              simp only [stackWeight, frameWeight_obj] at h ⊢
              simp at h ⊢
              omega
          match f, s with
          | some n, some fmt =>
            by_cases hst : cacheHas st n
            · -- already cached: skip the record, descend
              cases d with
              | some dn =>
                have hw := hdw
                simp only at hw
                obtain ⟨stack', hs'⟩ := ih st
                  (⟨dn, 0, false⟩ :: ⟨Node.obj (some n) (some fmt) (some dn), cur, true⟩ :: rest) id hw
                refine ⟨stack', ?_⟩
                rw [show nextGo (fuel + 1) st
                      (⟨Node.obj (some n) (some fmt) (some dn), cur, false⟩ :: rest) id =
                      nextGo fuel st (⟨dn, 0, false⟩ ::
                        ⟨Node.obj (some n) (some fmt) (some dn), cur, true⟩ :: rest) id by
                    simp [nextGo, hst]]
                rw [hs']
                have hp : runSpec st
                    (pending (⟨Node.obj (some n) (some fmt) (some dn), cur, false⟩ :: rest)) id =
                    runSpec st (pending (⟨dn, 0, false⟩ ::
                      ⟨Node.obj (some n) (some fmt) (some dn), cur, true⟩ :: rest)) id := by
                  simp [pending, framePending_prim, framePending_arr, framePending_obj,
                framePending_fresh, runSpec, hst]
                rw [hp]
              | none =>
                have hw := hdw
                simp only at hw
                obtain ⟨stack', hs'⟩ := ih st rest id hw
                refine ⟨stack', ?_⟩
                rw [show nextGo (fuel + 1) st
                      (⟨Node.obj (some n) (some fmt) none, cur, false⟩ :: rest) id =
                      nextGo fuel st rest id by simp [nextGo, hst]]
                rw [hs']
                have hp : runSpec st
                    (pending (⟨Node.obj (some n) (some fmt) none, cur, false⟩ :: rest)) id =
                    runSpec st (pending rest) id := by
                  simp [pending, framePending_prim, framePending_arr, framePending_obj,
                framePending_fresh, runSpec, hst]
                rw [hp]
            · by_cases hid : id = some n
              · -- record and yield, stack untouched
                refine ⟨⟨Node.obj (some n) (some fmt) d, cur, false⟩ :: rest, ?_⟩
                have hp : runSpec st
                    (pending (⟨Node.obj (some n) (some fmt) d, cur, false⟩ :: rest)) id =
                    (some fmt, cacheSet st n fmt) := by
                  simp [pending, framePending_prim, framePending_arr, framePending_obj,
                framePending_fresh, runSpec, hst, hid]
                rw [hp]
                simp [nextGo, hst, hid]
              · -- record silently, then descend
                cases d with
                | some dn =>
                  have hw := hdw
                  simp only at hw
                  obtain ⟨stack', hs'⟩ := ih (cacheSet st n fmt)
                    (⟨dn, 0, false⟩ ::
                      ⟨Node.obj (some n) (some fmt) (some dn), cur, true⟩ :: rest) id hw
                  refine ⟨stack', ?_⟩
                  rw [show nextGo (fuel + 1) st
                        (⟨Node.obj (some n) (some fmt) (some dn), cur, false⟩ :: rest) id =
                        nextGo fuel (cacheSet st n fmt) (⟨dn, 0, false⟩ ::
                          ⟨Node.obj (some n) (some fmt) (some dn), cur, true⟩ :: rest) id by
                      simp [nextGo, hst, hid]]
                  rw [hs']
                  have hp : runSpec st
                      (pending (⟨Node.obj (some n) (some fmt) (some dn), cur, false⟩ :: rest)) id =
                      runSpec (cacheSet st n fmt) (pending (⟨dn, 0, false⟩ ::
                        ⟨Node.obj (some n) (some fmt) (some dn), cur, true⟩ :: rest)) id := by
                    simp [pending, framePending_prim, framePending_arr, framePending_obj,
                framePending_fresh, runSpec, hst, hid]
                  rw [hp]
                | none =>
                  have hw := hdw
                  simp only at hw
                  obtain ⟨stack', hs'⟩ := ih (cacheSet st n fmt) rest id hw
                  refine ⟨stack', ?_⟩
                  rw [show nextGo (fuel + 1) st
                        (⟨Node.obj (some n) (some fmt) none, cur, false⟩ :: rest) id =
                        nextGo fuel (cacheSet st n fmt) rest id by simp [nextGo, hst, hid]]
                  rw [hs']
                  have hp : runSpec st
                      (pending (⟨Node.obj (some n) (some fmt) none, cur, false⟩ :: rest)) id =
                      runSpec (cacheSet st n fmt) (pending rest) id := by
                    simp [pending, framePending_prim, framePending_arr, framePending_obj,
                framePending_fresh, runSpec, hst, hid]
                  rw [hp]
          | none, s2 =>
            cases d with
            | some dn =>
              have hw := hdw
              simp only at hw
              obtain ⟨stack', hs'⟩ := ih st
                (⟨dn, 0, false⟩ :: ⟨Node.obj none s2 (some dn), cur, true⟩ :: rest) id hw
              refine ⟨stack', ?_⟩
              rw [show nextGo (fuel + 1) st
                    (⟨Node.obj none s2 (some dn), cur, false⟩ :: rest) id =
                    nextGo fuel st (⟨dn, 0, false⟩ ::
                      ⟨Node.obj none s2 (some dn), cur, true⟩ :: rest) id by
                  cases s2 <;> simp [nextGo]]
              rw [hs']
              have hp : pending (⟨Node.obj none s2 (some dn), cur, false⟩ :: rest) =
                  pending (⟨dn, 0, false⟩ ::
                    ⟨Node.obj none s2 (some dn), cur, true⟩ :: rest) := by
                cases s2 <;> simp [pending, framePending_prim, framePending_arr, framePending_obj,
                framePending_fresh]
              rw [hp]
            | none =>
              have hw := hdw
              simp only at hw
              obtain ⟨stack', hs'⟩ := ih st rest id hw
              refine ⟨stack', ?_⟩
              rw [show nextGo (fuel + 1) st
                    (⟨Node.obj none s2 none, cur, false⟩ :: rest) id =
                    nextGo fuel st rest id by cases s2 <;> simp [nextGo]]
              rw [hs']
              have hp : pending (⟨Node.obj none s2 none, cur, false⟩ :: rest) =
                  pending rest := by
                cases s2 <;> simp [pending, framePending_prim, framePending_arr, framePending_obj,
                framePending_fresh]
              rw [hp]
          | some n, none =>
            cases d with
            | some dn =>
              have hw := hdw
              simp only at hw
              obtain ⟨stack', hs'⟩ := ih st
                (⟨dn, 0, false⟩ :: ⟨Node.obj (some n) none (some dn), cur, true⟩ :: rest) id hw
              refine ⟨stack', ?_⟩
              rw [show nextGo (fuel + 1) st
                    (⟨Node.obj (some n) none (some dn), cur, false⟩ :: rest) id =
                    nextGo fuel st (⟨dn, 0, false⟩ ::
                      ⟨Node.obj (some n) none (some dn), cur, true⟩ :: rest) id by
                  simp [nextGo]]
              rw [hs']
              have hp : pending (⟨Node.obj (some n) none (some dn), cur, false⟩ :: rest) =
                  pending (⟨dn, 0, false⟩ ::
                    ⟨Node.obj (some n) none (some dn), cur, true⟩ :: rest) := by
                simp [pending, framePending_prim, framePending_arr, framePending_obj,
                framePending_fresh]
              rw [hp]
            | none =>
              have hw := hdw
              simp only at hw
              obtain ⟨stack', hs'⟩ := ih st rest id hw
              refine ⟨stack', ?_⟩
              rw [show nextGo (fuel + 1) st
                    (⟨Node.obj (some n) none none, cur, false⟩ :: rest) id =
                    nextGo fuel st rest id by simp [nextGo]]
              rw [hs']
              have hp : pending (⟨Node.obj (some n) none none, cur, false⟩ :: rest) =
                  pending rest := by
                simp [pending, framePending_prim, framePending_arr, framePending_obj,
                framePending_fresh]
              rw [hp]

/-- The value side of a replay: a target is yielded exactly when it is
not already cached and some declaration for it occurs in the list, and
then the yield is the first such declaration. -/
theorem runSpec_value (l : List (Nat × FormatList)) :
    ∀ (st : Storage) (id : Option Nat),
      (runSpec st l id).1 =
        match id with
        | none => none
        | some n => if cacheHas st n then none else cacheFind l n := by
  induction l with
  | nil =>
    intro st id
    cases id <;> simp [runSpec, cacheFind]
  | cons e rest ih =>
    intro st id
    obtain ⟨m, fmt⟩ := e
    by_cases hm : cacheHas st m
    · rw [show runSpec st ((m, fmt) :: rest) id = runSpec st rest id by
        simp [runSpec, hm]]
      rw [ih st id]
      cases id with
      | none => rfl
      | some n =>
        by_cases hn : cacheHas st n
        · simp [hn]
        · have hne : m ≠ n := fun he => hn (he ▸ hm)
          simp [hn, cacheFind, hne]
    · by_cases hid : id = some m
      · subst hid
        simp [runSpec, hm, cacheFind]
      · rw [show runSpec st ((m, fmt) :: rest) id =
            runSpec (cacheSet st m fmt) rest id by simp [runSpec, hm, hid]]
        rw [ih (cacheSet st m fmt) id]
        cases id with
        | none => rfl
        | some n =>
          have hne : m ≠ n := fun he => hid (by rw [he])
          have hhas : cacheHas (cacheSet st m fmt) n = cacheHas st n := by
            simp [cacheHas, cacheFind_set_ne st m n fmt hne]
          by_cases hn : cacheHas st n
          · simp [hhas, hn]
          · simp [hhas, hn, cacheFind, hne]

/-- A replay never overwrites an already cached id. -/
theorem runSpec_preserves (l : List (Nat × FormatList)) :
    ∀ (st : Storage) (id : Option Nat) (k : Nat),
      cacheHas st k →
      cacheFind (runSpec st l id).2 k = cacheFind st k := by
  induction l with
  | nil => intro st id k _; simp [runSpec]
  | cons e rest ih =>
    intro st id k hk
    obtain ⟨m, fmt⟩ := e
    by_cases hm : cacheHas st m
    · rw [show runSpec st ((m, fmt) :: rest) id = runSpec st rest id by
        simp [runSpec, hm]]
      exact ih st id k hk
    · have hne : m ≠ k := fun he => hm (he ▸ hk)
      by_cases hid : id = some m
      · subst hid
        simp [runSpec, hm, cacheFind_set_ne st m k fmt hne]
      · rw [show runSpec st ((m, fmt) :: rest) id =
            runSpec (cacheSet st m fmt) rest id by simp [runSpec, hm, hid]]
        have hk' : cacheHas (cacheSet st m fmt) k := by
          simpa [cacheHas, cacheFind_set_ne st m k fmt hne] using hk
        rw [ih (cacheSet st m fmt) id k hk']
        exact cacheFind_set_ne st m k fmt hne

/-- Every binding a replay adds comes from the first declaration of its
id in the replayed list. -/
theorem runSpec_new (l : List (Nat × FormatList)) :
    ∀ (st : Storage) (id : Option Nat) (k : Nat) (v : FormatList),
      ¬cacheHas st k →
      cacheFind (runSpec st l id).2 k = some v →
      cacheFind l k = some v := by
  induction l with
  | nil =>
    intro st id k v hk hfind
    simp [runSpec] at hfind
    exact absurd (by simp [cacheHas, hfind]) hk
  | cons e rest ih =>
    intro st id k v hk hfind
    obtain ⟨m, fmt⟩ := e
    by_cases hm : cacheHas st m
    · have hne : m ≠ k := fun he => hk (he ▸ hm)
      rw [show runSpec st ((m, fmt) :: rest) id = runSpec st rest id by
        simp [runSpec, hm]] at hfind
      rw [show cacheFind ((m, fmt) :: rest) k = cacheFind rest k by
        simp [cacheFind, hne]]
      exact ih st id k v hk hfind
    · by_cases hmk : m = k
      · subst hmk
        -- the head is the first declaration of k and is recorded now
        by_cases hid : id = some m
        · subst hid
          simp [runSpec, hm] at hfind
          rw [cacheFind_set_self st m fmt] at hfind
          simp [cacheFind, ← hfind]
        · rw [show runSpec st ((m, fmt) :: rest) id =
              runSpec (cacheSet st m fmt) rest id by simp [runSpec, hm, hid]] at hfind
          have hhas : cacheHas (cacheSet st m fmt) m := by
            simp [cacheHas, cacheFind_set_self]
          rw [runSpec_preserves rest (cacheSet st m fmt) id m hhas,
            cacheFind_set_self st m fmt] at hfind
          simp [cacheFind, ← hfind]
      · rw [show cacheFind ((m, fmt) :: rest) k = cacheFind rest k by
          simp [cacheFind, hmk]]
        by_cases hid : id = some m
        · subst hid
          simp [runSpec, hm] at hfind
          rw [cacheFind_set_ne st m k fmt hmk] at hfind
          exact absurd (by simp [cacheHas, hfind]) hk
        · rw [show runSpec st ((m, fmt) :: rest) id =
              runSpec (cacheSet st m fmt) rest id by simp [runSpec, hm, hid]] at hfind
          have hk' : ¬cacheHas (cacheSet st m fmt) k := by
            simpa [cacheHas, cacheFind_set_ne st m k fmt hmk] using hk
          exact ih (cacheSet st m fmt) id k v hk' hfind

/-- After a replay that exhausted the list without yielding, the cache
holds exactly its previous bindings plus the first declaration of every
other id of the list. -/
theorem runSpec_done_find (l : List (Nat × FormatList)) :
    ∀ (st : Storage) (id : Option Nat) (k : Nat),
      (runSpec st l id).1 = none →
      cacheFind (runSpec st l id).2 k =
        match cacheFind st k with
        | some v => some v
        | none => cacheFind l k := by
  induction l with
  | nil =>
    intro st id k _
    cases hf : cacheFind st k <;> simp [runSpec, cacheFind, hf]
  | cons e rest ih =>
    intro st id k hdone
    obtain ⟨m, fmt⟩ := e
    by_cases hm : cacheHas st m
    · rw [show runSpec st ((m, fmt) :: rest) id = runSpec st rest id by
        simp [runSpec, hm]] at hdone ⊢
      rw [ih st id k hdone]
      cases hf : cacheFind st k with
      | some v => rfl
      | none =>
        have hne : m ≠ k := fun he => by
          rw [he] at hm; exact absurd hm (by simp [cacheHas, hf])
        simp [cacheFind, hne]
    · by_cases hid : id = some m
      · subst hid
        simp [runSpec, hm] at hdone
      · rw [show runSpec st ((m, fmt) :: rest) id =
            runSpec (cacheSet st m fmt) rest id by simp [runSpec, hm, hid]] at hdone ⊢
        rw [ih (cacheSet st m fmt) id k hdone]
        by_cases hmk : m = k
        · subst hmk
          have hf : cacheFind st m = none := by
            cases hf : cacheFind st m with
            | none => rfl
            | some v => exact absurd (by simp [cacheHas, hf]) hm
          simp [hf, cacheFind_set_self, cacheFind]
        · rw [cacheFind_set_ne st m k fmt hmk]
          cases hf : cacheFind st k with
          | some v => rfl
          | none => simp [cacheFind, hmk]

/-- format.slice() returns a list with exactly the same elements. -/
theorem clone_eq (fmt : FormatList) : SbisFormatController._clone fmt = fmt :=
  List.take_length fmt

/-- A brand-new engine run once behaves as the replay of the whole list
of document-order format declarations of its payload. -/
theorem next_new_eq (P : Node) (st : Storage) (id : Option Nat) :
    ∃ it', (RecursiveIterator.new P).next st id =
      ({ value := (runSpec st P.formatEntries id).1,
         done := (runSpec st P.formatEntries id).1.isNone },
       (runSpec st P.formatEntries id).2, it') := by
  obtain ⟨stack', hs⟩ := nextGo_eq_runSpec
    (stackWeight [{ data := P }] + 1) st [{ data := P }] id (by omega)
  refine ⟨⟨stack'⟩, ?_⟩
  have hpend : pending [{ data := P }] = P.formatEntries := by
    simp [pending, framePending_fresh]
  rw [hpend] at hs
  simp [RecursiveIterator.next, RecursiveIterator.new, hs]

/-- Full characterization of getFormat on a controller whose engine slot
is (still) empty: cache hit, or a fresh root-to-target replay. -/
theorem getFormat_eq (c : SbisFormatController) (hg : c._generator = none)
    (id : Nat) (copy : Bool) :
    c.getFormat id copy =
      match cacheFind c._cache id with
      | some fmt => (Except.ok fmt, c)
      | none =>
        match (runSpec c._cache c._data.formatEntries (some id)).1 with
        | some fmt => (Except.ok fmt,
            { c with _cache := (runSpec c._cache c._data.formatEntries (some id)).2 })
        | none => (Except.error LookupError.couldNotFindFormatById,
            { c with _cache := (runSpec c._cache c._data.formatEntries (some id)).2 }) := by
  obtain ⟨it', hnext⟩ := next_new_eq c._data c._cache (some id)
  have hgen : c.generator = RecursiveIterator.new c._data := by
    simp [SbisFormatController.generator, hg]
  cases hc : cacheFind c._cache id with
  | some fmt => simp [SbisFormatController.getFormat, hc, clone_eq]
  | none =>
    cases hr : (runSpec c._cache c._data.formatEntries (some id)).1 with
    | some fmt =>
      simp [SbisFormatController.getFormat, hc, hgen, hnext, hr, clone_eq]
    | none =>
      simp [SbisFormatController.getFormat, hc, hgen, hnext, hr]

/-- The lookup result, as a function of the cache and of the payload's
first-wins declaration table. -/
theorem getFormat_value (c : SbisFormatController) (hg : c._generator = none)
    (id : Nat) (copy : Bool) :
    (c.getFormat id copy).1 =
      match cacheFind c._cache id with
      | some fmt => Except.ok fmt
      | none =>
        match cacheFind c._data.formatEntries id with
        | some fmt => Except.ok fmt
        | none => Except.error LookupError.couldNotFindFormatById := by
  rw [getFormat_eq c hg id copy]
  cases hc : cacheFind c._cache id with
  | some fmt => rfl
  | none =>
    have hv := runSpec_value c._data.formatEntries c._cache (some id)
    have hhas : cacheHas c._cache id = false := by simp [cacheHas, hc]
    simp only [hhas, Bool.false_eq_true, if_false] at hv
    cases hf : cacheFind c._data.formatEntries id <;> simp [hv, hf]

/-- getFormat never touches the bound payload or the (empty) engine
slot; only the cache component changes. -/
theorem getFormat_state (c : SbisFormatController) (id : Nat) (copy : Bool) :
    ((c.getFormat id copy).2)._data = c._data ∧
    ((c.getFormat id copy).2)._generator = c._generator := by
  unfold SbisFormatController.getFormat
  cases cacheFind c._cache id with
  | some fmt => exact ⟨rfl, rfl⟩
  | none =>
    cases hv : ((c.generator).next c._cache (some id)).1.value <;> simp [hv]

/-- Cached entries survive any lookup unchanged (no overwriting). -/
theorem getFormat_cache_preserve (c : SbisFormatController) (hg : c._generator = none)
    (id : Nat) (copy : Bool) (k : Nat) (hk : cacheHas c._cache k) :
    cacheFind ((c.getFormat id copy).2)._cache k = cacheFind c._cache k := by
  rw [getFormat_eq c hg id copy]
  cases hc : cacheFind c._cache id with
  | some fmt => rfl
  | none =>
    cases hr : (runSpec c._cache c._data.formatEntries (some id)).1 <;>
      simpa using runSpec_preserves c._data.formatEntries c._cache (some id) k hk

/-- Any binding a lookup adds to the cache is the first-declared format
of its id in the bound payload. -/
theorem getFormat_cache_new (c : SbisFormatController) (hg : c._generator = none)
    (id : Nat) (copy : Bool) (k : Nat) (v : FormatList)
    (hk : ¬cacheHas c._cache k)
    (hfind : cacheFind ((c.getFormat id copy).2)._cache k = some v) :
    cacheFind c._data.formatEntries k = some v := by
  rw [getFormat_eq c hg id copy] at hfind
  cases hc : cacheFind c._cache id with
  | some fmt =>
    rw [hc] at hfind
    exact absurd (by simp [cacheHas, hfind]) hk
  | none =>
    rw [hc] at hfind
    cases hr : (runSpec c._cache c._data.formatEntries (some id)).1 <;>
      rw [hr] at hfind <;>
      exact runSpec_new c._data.formatEntries c._cache (some id) k v hk (by simpa using hfind)

/-- Lookups never change the outcome of later lookups: the value a
controller returns for an id is stable across intervening getFormat
calls, whatever their ids and whether they succeed or fail. -/
theorem getFormat_stable (c : SbisFormatController) (hg : c._generator = none)
    (a : Nat) (copy : Bool) (k : Nat) (copy2 : Bool) :
    (((c.getFormat a copy).2).getFormat k copy2).1 = (c.getFormat k copy2).1 := by
  have hst := getFormat_state c a copy
  have hg' : ((c.getFormat a copy).2)._generator = none := by rw [hst.2, hg]
  rw [getFormat_value ((c.getFormat a copy).2) hg' k copy2, getFormat_value c hg k copy2,
    hst.1]
  cases hc : cacheFind c._cache k with
  | some v =>
    rw [getFormat_cache_preserve c hg a copy k (by simp [cacheHas, hc]), hc]
  | none =>
    cases hc' : cacheFind ((c.getFormat a copy).2)._cache k with
    | none => rfl
    | some v =>
      have := getFormat_cache_new c hg a copy k v (by simp [cacheHas, hc]) hc'
      rw [this]

/-- setOriginal only adds its (cloned) binding to the cache. -/
theorem setOriginal_state (c : SbisFormatController) (id : Nat) (fmt : FormatList) :
    (c.setOriginal id fmt)._data = c._data ∧
    (c.setOriginal id fmt)._generator = c._generator ∧
    (c.setOriginal id fmt)._cache = cacheSet c._cache id fmt := by
  refine ⟨rfl, rfl, ?_⟩
  simp [SbisFormatController.setOriginal, clone_eq]

/-- scanFormats only changes the cache component. -/
theorem scanFormats_state (c : SbisFormatController) (P : Node) :
    (c.scanFormats P)._data = c._data ∧ (c.scanFormats P)._generator = c._generator := by
  unfold SbisFormatController.scanFormats
  cases P.isObjectLike <;> simp

/-- What the cache holds after an eager scan: every previous binding,
plus the first-wins declaration table of the scanned payload. -/
theorem scanFormats_cache (c : SbisFormatController) (P : Node) (k : Nat) :
    cacheFind (c.scanFormats P)._cache k =
      match cacheFind c._cache k with
      | some v => some v
      | none => cacheFind P.formatEntries k := by
  unfold SbisFormatController.scanFormats
  cases hob : P.isObjectLike with
  | false =>
    have hP : P = Node.prim := by
      cases P <;> simp [Node.isObjectLike] at hob <;> rfl
    subst hP
    simp only [Bool.false_eq_true, if_false]
    cases hf : cacheFind c._cache k <;> simp [hf, Node.formatEntries_prim, cacheFind]
  | true =>
    obtain ⟨it', hnext⟩ := next_new_eq P c._cache none
    have hval : (runSpec c._cache P.formatEntries none).1 = none := by
      rw [runSpec_value]
    simp only [if_true, hnext]
    exact runSpec_done_find P.formatEntries c._cache none k hval

/-- State surviving any run of pure lookups: the engine slot stays
empty, the payload stays bound, cached bindings are never overwritten,
and every new binding is a first-declared format of the payload. -/
theorem applyGets_facts (l : List Nat) :
    ∀ (c : SbisFormatController), c._generator = none →
      (applyGets c l)._generator = none ∧
      (applyGets c l)._data = c._data ∧
      (∀ k, cacheHas c._cache k →
        cacheFind (applyGets c l)._cache k = cacheFind c._cache k) ∧
      (∀ k v, ¬cacheHas c._cache k →
        cacheFind (applyGets c l)._cache k = some v →
        cacheFind c._data.formatEntries k = some v) := by
  induction l with
  | nil =>
    intro c hg
    refine ⟨hg, rfl, fun k _ => rfl, fun k v hk hv => absurd ?_ hk⟩
    have hv' : cacheFind c._cache k = some v := hv
    simp [cacheHas, hv']
  | cons i rest ih =>
    intro c hg
    have hst := getFormat_state c i false
    have hg' : ((c.getFormat i).2)._generator = none := by rw [hst.2, hg]
    obtain ⟨ihgen, ihdata, ihpres, ihnew⟩ := ih ((c.getFormat i).2) hg'
    refine ⟨ihgen, by rw [show applyGets c (i :: rest) =
        applyGets ((c.getFormat i).2) rest from rfl, ihdata, hst.1], ?_, ?_⟩
    · intro k hk
      have hpres := getFormat_cache_preserve c hg i false k hk
      have hk' : cacheHas ((c.getFormat i).2)._cache k := by
        simpa [cacheHas, hpres] using hk
      rw [show applyGets c (i :: rest) = applyGets ((c.getFormat i).2) rest from rfl,
        ihpres k hk', hpres]
    · intro k v hk hv
      rw [show applyGets c (i :: rest) = applyGets ((c.getFormat i).2) rest from rfl] at hv
      by_cases hk' : cacheHas ((c.getFormat i).2)._cache k
      · rw [ihpres k hk'] at hv
        exact getFormat_cache_new c hg i false k v hk hv
      · have := ihnew k v hk' hv
        rwa [hst.1] at this

/-- State surviving any run of lookups and manual seedings: the engine
slot stays empty, the payload stays bound, cached ids all stem from the
payload or from a seeding, and every payload id or seeded id once cached
stays cached. -/
theorem applyOps_facts (ops : List COp) :
    ∀ (c : SbisFormatController), c._generator = none →
      (applyOps c ops)._generator = none ∧
      (applyOps c ops)._data = c._data ∧
      (∀ k, cacheHas (applyOps c ops)._cache k →
        cacheHas c._cache k ∨ (cacheFind c._data.formatEntries k).isSome ∨
          k ∈ seedIds ops) ∧
      (∀ k, cacheHas c._cache k ∨ k ∈ seedIds ops →
        cacheHas (applyOps c ops)._cache k) := by
  induction ops with
  | nil =>
    intro c hg
    refine ⟨hg, rfl, fun k hk => Or.inl hk, fun k hk => ?_⟩
    cases hk with
    | inl h => exact h
    | inr h => cases h
  | cons op rest ih =>
    intro c hg
    cases op with
    | get i =>
      have hst := getFormat_state c i false
      have hg2 : ((c.getFormat i).2)._generator = none := by rw [hst.2, hg]
      obtain ⟨ihgen, ihdata, ihdom, ihmono⟩ := ih ((c.getFormat i).2) hg2
      have heq : applyOps c (COp.get i :: rest) = applyOps ((c.getFormat i).2) rest := rfl
      refine ⟨by rw [heq]; exact ihgen, by rw [heq, ihdata, hst.1], ?_, ?_⟩
      · intro k hk
        rw [heq] at hk
        rcases ihdom k hk with h | h | h
        · by_cases hck : cacheHas c._cache k
          · exact Or.inl hck
          · rcases Option.isSome_iff_exists.mp (by simpa [cacheHas] using h) with ⟨v, hv⟩
            have hnew := getFormat_cache_new c hg i false k v hck hv
            exact Or.inr (Or.inl (by simp [hnew]))
        · rw [hst.1] at h
          exact Or.inr (Or.inl h)
        · exact Or.inr (Or.inr (by simpa [seedIds] using h))
      · intro k hk
        rw [heq]
        refine ihmono k ?_
        cases hk with
        | inl h =>
          have hp := getFormat_cache_preserve c hg i false k h
          exact Or.inl (by simpa [cacheHas, hp] using h)
        | inr h => exact Or.inr (by simpa [seedIds] using h)
    | seed i fmt =>
      have hset := setOriginal_state c i fmt
      have hg2 : (c.setOriginal i fmt)._generator = none := by rw [hset.2.1, hg]
      obtain ⟨ihgen, ihdata, ihdom, ihmono⟩ := ih (c.setOriginal i fmt) hg2
      have heq : applyOps c (COp.seed i fmt :: rest) = applyOps (c.setOriginal i fmt) rest := rfl
      refine ⟨by rw [heq]; exact ihgen, by rw [heq, ihdata, hset.1], ?_, ?_⟩
      · intro k hk
        rw [heq] at hk
        rcases ihdom k hk with h | h | h
        · rw [hset.2.2, cacheHas_set] at h
          rcases Bool.or_eq_true_iff.mp h with h | h
          · exact Or.inr (Or.inr (by simp [seedIds, of_decide_eq_true h]))
          · exact Or.inl h
        · rw [hset.1] at h
          exact Or.inr (Or.inl h)
        · exact Or.inr (Or.inr (by simp [seedIds, h]))
      · intro k hk
        rw [heq]
        refine ihmono k ?_
        cases hk with
        | inl h =>
          refine Or.inl ?_
          rw [hset.2.2, cacheHas_set, h, Bool.or_true]
        | inr h =>
          rw [show seedIds (COp.seed i fmt :: rest) = i :: seedIds rest from rfl] at h
          rcases List.mem_cons.mp h with h | h
          · subst h
            refine Or.inl ?_
            rw [hset.2.2, cacheHas_set]
            simp
          · exact Or.inr h

/-- A lookup whose id is already cached returns the cached list and
leaves the controller untouched. -/
theorem getFormat_cache_hit (c : SbisFormatController) (id : Nat) (fmt : FormatList)
    (h : cacheFind c._cache id = some fmt) : c.getFormat id = (Except.ok fmt, c) := by
  simp [SbisFormatController.getFormat, h]

/-- C1: for every payload and every id N declared somewhere in it with
an inline structure, getFormat N - on the fresh controller or after any
run of earlier lookups - returns the structure declared earliest in
document order (outer to inner, left to right, the first hit of the
declaration table), and the cache never holds any other structure for N:
later duplicate declarations are neither returned nor cached. -/
theorem getFormat_first_declaration_wins (P : Node) (l : List Nat) (N : Nat)
    (fmt : FormatList) (hdecl : cacheFind P.formatEntries N = some fmt) :
    ((applyGets (SbisFormatController.new P) l).getFormat N).1 = Except.ok fmt ∧
    (∀ v, cacheFind (applyGets (SbisFormatController.new P) l)._cache N = some v →
      v = fmt) := by
  obtain ⟨hgen, hdata, hpres, hnew⟩ :=
    applyGets_facts l (SbisFormatController.new P) rfl
  have hempty : ¬cacheHas (SbisFormatController.new P)._cache N := by
    simp [SbisFormatController.new, cacheHas, cacheFind]
  have hsound : ∀ v,
      cacheFind (applyGets (SbisFormatController.new P) l)._cache N = some v →
      v = fmt := by
    intro v hv
    have := hnew N v hempty hv
    rw [show (SbisFormatController.new P)._data = P from rfl, hdecl] at this
    exact (Option.some_injective _ this).symm
  refine ⟨?_, hsound⟩
  rw [getFormat_value (applyGets (SbisFormatController.new P) l) hgen N false]
  cases hc : cacheFind (applyGets (SbisFormatController.new P) l)._cache N with
  | some v => simp [hsound v hc]
  | none =>
    rw [hdata, show (SbisFormatController.new P)._data = P from rfl, hdecl]

/-- C1 witness: a payload declaring id 7 twice with different
structures; the lookup returns the outer (first) declaration, also when
an unrelated lookup came first, and only it is ever cached. -/
theorem getFormat_first_declaration_wins_witness :
    cacheFind (Node.arr [Node.obj (some 7) (some [⟨"a"⟩])
        (some (.arr [Node.obj (some 7) (some [⟨"b"⟩]) none]))]).formatEntries 7 =
      some [⟨"a"⟩] ∧
    ((applyGets (SbisFormatController.new (Node.arr [Node.obj (some 7) (some [⟨"a"⟩])
        (some (.arr [Node.obj (some 7) (some [⟨"b"⟩]) none]))])) [7]).getFormat 7).1 =
      Except.ok [⟨"a"⟩] :=
  ⟨by decide, (getFormat_first_declaration_wins
    (Node.arr [Node.obj (some 7) (some [⟨"a"⟩])
      (some (.arr [Node.obj (some 7) (some [⟨"b"⟩]) none]))]) [7] 7 [⟨"a"⟩]
    (by decide)).1⟩

/-- C2: a lookup of A followed by a lookup of B on the same controller
returns for B exactly what a fresh controller bound to the same payload
returns for B: cached side effects of the first call never change the
second call's outcome. -/
theorem getFormat_independent_of_prior_lookup (P : Node) (A B : Nat) :
    (((SbisFormatController.new P).getFormat A).2.getFormat B).1 =
      ((SbisFormatController.new P).getFormat B).1 :=
  getFormat_stable (SbisFormatController.new P) rfl A false B false

/-- C3: the source never assigns the _generator field (the getter's
memoization write is missing), so after any run of lookups the
controller still holds no engine instance, and the engine the next
cache-missing lookup will use is a brand-new one whose stack starts at
the payload root - traversal progress is not persisted and nothing is
resumed, contrary to the lazily-created-then-reused engine the
specification describes. -/
theorem engine_instance_never_reused (P : Node) (l : List Nat) (id : Nat) (copy : Bool) :
    ((applyGets (SbisFormatController.new P) l).getFormat id copy).2._generator = none ∧
    ((applyGets (SbisFormatController.new P) l).getFormat id copy).2.generator =
      RecursiveIterator.new P := by
  obtain ⟨hgen, hdata, _, _⟩ := applyGets_facts l (SbisFormatController.new P) rfl
  have hst := getFormat_state (applyGets (SbisFormatController.new P) l) id copy
  have hg2 : ((applyGets (SbisFormatController.new P) l).getFormat id copy).2._generator =
      none := by rw [hst.2, hgen]
  refine ⟨hg2, ?_⟩
  rw [show ((applyGets (SbisFormatController.new P) l).getFormat id copy).2.generator =
      RecursiveIterator.new
        ((applyGets (SbisFormatController.new P) l).getFormat id copy).2._data by
    simp [SbisFormatController.generator, hg2]]
  rw [hst.1, hdata]
  rfl

/-- C4: a lookup raises the ReferenceError exactly when its id neither
occurs anywhere in the bound payload with an inline structure nor was
seeded by setOriginal, however many lookups and seedings (successful or
not) came before. -/
theorem getFormat_lookup_error_iff (P : Node) (ops : List COp) (id : Nat) :
    ((applyOps (SbisFormatController.new P) ops).getFormat id).1 =
        Except.error LookupError.couldNotFindFormatById ↔
      cacheFind P.formatEntries id = none ∧ id ∉ seedIds ops := by
  obtain ⟨hgen, hdata, hdom, hmono⟩ := applyOps_facts ops (SbisFormatController.new P) rfl
  rw [getFormat_value (applyOps (SbisFormatController.new P) ops) hgen id false, hdata,
    show (SbisFormatController.new P)._data = P from rfl]
  constructor
  · intro herr
    cases hc : cacheFind (applyOps (SbisFormatController.new P) ops)._cache id with
    | some v => rw [hc] at herr; cases herr
    | none =>
      rw [hc] at herr
      cases hf : cacheFind P.formatEntries id with
      | some v => rw [hf] at herr; cases herr
      | none =>
        refine ⟨rfl, fun hseed => ?_⟩
        have := hmono id (Or.inr hseed)
        rw [cacheHas, hc] at this
        cases this
  · rintro ⟨hf, hseed⟩
    cases hc : cacheFind (applyOps (SbisFormatController.new P) ops)._cache id with
    | some v =>
      exfalso
      rcases hdom id (by simp [cacheHas, hc]) with h | h | h
      · simp [SbisFormatController.new, cacheHas, cacheFind] at h
      · rw [show (SbisFormatController.new P)._data = P from rfl, hf] at h
        cases h
      · exact hseed h
    | none => rw [hf]

/-- C4 witness: on the specification's concrete scenario payload, after
a successful lookup of 1 and a seeding of 9, looking up 3 still fails
with the ReferenceError. -/
theorem getFormat_lookup_error_iff_witness :
    ((applyOps (SbisFormatController.new demoPayload)
        [COp.get 1, COp.seed 9 [⟨"z"⟩]]).getFormat 3).1 =
      Except.error LookupError.couldNotFindFormatById :=
  (getFormat_lookup_error_iff demoPayload [COp.get 1, COp.seed 9 [⟨"z"⟩]] 3).mpr
    (by refine ⟨by decide, ?_⟩; decide)

/-- C6: an eager scan records the first-wins declaration of every id of
the scanned payload in the cache, so a later lookup of any such id is
answered from the cache - it neither fails nor touches the controller
state again (no further traversal side effects). -/
theorem scanFormats_then_getFormat (P : Node) (N : Nat) (fmt : FormatList)
    (hdecl : cacheFind P.formatEntries N = some fmt) :
    cacheFind ((SbisFormatController.new P).scanFormats P)._cache N = some fmt ∧
    ((SbisFormatController.new P).scanFormats P).getFormat N =
      (Except.ok fmt, (SbisFormatController.new P).scanFormats P) := by
  have hfind := scanFormats_cache (SbisFormatController.new P) P N
  rw [show cacheFind (SbisFormatController.new P)._cache N = none from rfl, hdecl] at hfind
  refine ⟨hfind, ?_⟩
  simp [SbisFormatController.getFormat, hfind]

/-- C6 witness: scan the scenario payload, then both declared ids are
served from the cache with the controller unchanged. -/
theorem scanFormats_then_getFormat_witness :
    cacheFind demoPayload.formatEntries 2 = some [⟨"x"⟩] ∧
    ((SbisFormatController.new demoPayload).scanFormats demoPayload).getFormat 2 =
      (Except.ok [⟨"x"⟩], (SbisFormatController.new demoPayload).scanFormats demoPayload) :=
  ⟨by decide, (scanFormats_then_getFormat demoPayload 2 [⟨"x"⟩] (by decide)).2⟩

/-- C8: getFormat, scanFormats and setOriginal never change the payload
the controller is bound to, nor its (empty) engine slot; the cache is
the only controller-owned state they mutate. -/
theorem operations_preserve_payload (c : SbisFormatController) :
    (∀ id copy, ((c.getFormat id copy).2)._data = c._data ∧
      ((c.getFormat id copy).2)._generator = c._generator) ∧
    (∀ P, (c.scanFormats P)._data = c._data ∧
      (c.scanFormats P)._generator = c._generator) ∧
    (∀ id fmt, (c.setOriginal id fmt)._data = c._data ∧
      (c.setOriginal id fmt)._generator = c._generator) :=
  ⟨fun id copy => getFormat_state c id copy,
   fun P => scanFormats_state c P,
   fun id fmt => ⟨(setOriginal_state c id fmt).1, (setOriginal_state c id fmt).2.1⟩⟩

/-- C10: when a lookup fails, the cache it leaves behind is not rolled
back: it now binds every id declared in the payload with an inline
structure to its first-wins format, so a subsequent lookup of any such
id succeeds straight from the cache, leaving the controller untouched. -/
theorem failed_lookup_fills_cache (P : Node) (l : List Nat) (id N : Nat)
    (fmt : FormatList)
    (herr : ((applyGets (SbisFormatController.new P) l).getFormat id).1 =
      Except.error LookupError.couldNotFindFormatById)
    (hdecl : cacheFind P.formatEntries N = some fmt) :
    cacheFind (((applyGets (SbisFormatController.new P) l).getFormat id).2)._cache N =
      some fmt ∧
    ((((applyGets (SbisFormatController.new P) l).getFormat id).2).getFormat N) =
      (Except.ok fmt, ((applyGets (SbisFormatController.new P) l).getFormat id).2) := by
  obtain ⟨hgen, hdata, hpres, hnew⟩ := applyGets_facts l (SbisFormatController.new P) rfl
  have hempty : ¬cacheHas (SbisFormatController.new P)._cache N := by
    simp [SbisFormatController.new, cacheHas, cacheFind]
  have hgfe := getFormat_eq (applyGets (SbisFormatController.new P) l) hgen id false
  have hfindN : cacheFind (((applyGets (SbisFormatController.new P) l).getFormat id).2)._cache N =
      some fmt := by
    rw [hgfe] at herr ⊢
    cases hc : cacheFind (applyGets (SbisFormatController.new P) l)._cache id with
    | some v => simp [hc] at herr
    | none =>
      cases hr : (runSpec (applyGets (SbisFormatController.new P) l)._cache
          ((applyGets (SbisFormatController.new P) l)._data).formatEntries (some id)).1 with
      | some v => simp [hc, hr] at herr
      | none =>
        have hdone := runSpec_done_find
          ((applyGets (SbisFormatController.new P) l)._data).formatEntries
          (applyGets (SbisFormatController.new P) l)._cache (some id) N hr
        show cacheFind (runSpec (applyGets (SbisFormatController.new P) l)._cache
            ((applyGets (SbisFormatController.new P) l)._data).formatEntries (some id)).2 N =
          some fmt
        rw [hdone]
        cases hcN : cacheFind (applyGets (SbisFormatController.new P) l)._cache N with
        | some v =>
          have hv : cacheFind P.formatEntries N = some v := hnew N v hempty hcN
          rw [hdecl] at hv
          show some v = some fmt
          rw [Option.some_injective _ hv]
        | none =>
          show cacheFind (applyGets (SbisFormatController.new P) l)._data.formatEntries N =
            some fmt
          rw [hdata]
          exact hdecl
  exact ⟨hfindN, getFormat_cache_hit _ N fmt hfindN⟩

/-- C10 witness: on the scenario payload the failing lookup of 3 leaves
both declared formats cached, and 1 is then served from the cache. -/
theorem failed_lookup_fills_cache_witness :
    ((applyGets (SbisFormatController.new demoPayload) []).getFormat 3).1 =
      Except.error LookupError.couldNotFindFormatById ∧
    ((((applyGets (SbisFormatController.new demoPayload) []).getFormat 3).2).getFormat 1) =
      (Except.ok [⟨"id"⟩], ((applyGets (SbisFormatController.new demoPayload) []).getFormat 3).2) :=
  ⟨rfl, (failed_lookup_fills_cache demoPayload [] 3 1 [⟨"id"⟩] rfl (by decide)).2⟩

/-- C9: for every finite payload the engine loop terminates - within
stackWeight many steps it returns either a yielded field list or done -
and across all calls on one engine no cached format is ever recorded a
second time (bindings are never overwritten), while a full traversal
with no target skips no declared format: it ends done with every
declared id cached. -/
theorem engine_next_total_and_exact (st : Storage) (it : RecursiveIterator)
    (idt : Option Nat) :
    (nextGo (stackWeight it._stackNodes + 1) st it._stackNodes idt).isSome = true ∧
    (∀ k, cacheHas st k → cacheFind ((it.next st idt).2.1) k = cacheFind st k) ∧
    (∀ P, ((RecursiveIterator.new P).next st none).1.done = true) ∧
    (∀ P k, (cacheFind P.formatEntries k).isSome →
      cacheHas (((RecursiveIterator.new P).next st none).2.1) k) := by
  obtain ⟨stack', hs⟩ := nextGo_eq_runSpec (stackWeight it._stackNodes + 1) st
    it._stackNodes idt (by omega)
  refine ⟨by rw [hs]; rfl, ?_, ?_, ?_⟩
  · intro k hk
    have hnext : (it.next st idt).2.1 = (runSpec st (pending it._stackNodes) idt).2 := by
      simp [RecursiveIterator.next, hs]
    rw [hnext]
    exact runSpec_preserves (pending it._stackNodes) st idt k hk
  · intro P
    obtain ⟨it', hnext⟩ := next_new_eq P st none
    rw [hnext]
    have := runSpec_value P.formatEntries st none
    simp [this]
  · intro P k hk
    obtain ⟨it', hnext⟩ := next_new_eq P st none
    have hval : (runSpec st P.formatEntries none).1 = none := by
      rw [runSpec_value]
    have hfind := runSpec_done_find P.formatEntries st none k hval
    rw [hnext]
    simp only
    rw [cacheHas, hfind]
    cases hf : cacheFind st k with
    | some v => rfl
    | none =>
      rcases Option.isSome_iff_exists.mp hk with ⟨v, hv⟩
      simp [hv]

/-- C9 witness: on the scenario payload a pre-cached binding for id 5
survives a targeted call unchanged, and a full untargeted traversal ends
done with the inner declaration of id 2 cached. -/
theorem engine_next_total_and_exact_witness :
    (cacheHas [(5, [⟨"a"⟩])] 5 = true ∧
      cacheFind (((RecursiveIterator.new demoPayload).next [(5, [⟨"a"⟩])] (some 1)).2.1) 5 =
        cacheFind [(5, [⟨"a"⟩])] 5) ∧
    ((RecursiveIterator.new demoPayload).next [] none).1.done = true ∧
    ((cacheFind demoPayload.formatEntries 2).isSome = true ∧
      cacheHas (((RecursiveIterator.new demoPayload).next [] none).2.1) 2 = true) :=
  ⟨⟨by decide,
    (engine_next_total_and_exact [(5, [⟨"a"⟩])]
      (RecursiveIterator.new demoPayload) (some 1)).2.1 5 (by decide)⟩,
   (engine_next_total_and_exact [] (RecursiveIterator.new demoPayload) none).2.2.1
     demoPayload,
   ⟨by decide,
    (engine_next_total_and_exact [] (RecursiveIterator.new demoPayload) none).2.2.2
      demoPayload 2 (by decide)⟩⟩

theorem recoverNode_prim (c : SbisFormatController) :
    recoverNode c Node.prim = .ok (Node.prim, c) := rfl

theorem recoverNode_arr (c : SbisFormatController) (items : List Node) :
    recoverNode c (Node.arr items) =
      match recoverNodeList c items with
      | .ok (items2, c2) => .ok (Node.arr items2, c2)
      | .error e => .error e := rfl

theorem recoverNodeList_nil (c : SbisFormatController) :
    recoverNodeList c [] = .ok ([], c) := rfl

theorem recoverNodeList_cons (c : SbisFormatController) (n : Node) (ns : List Node) :
    recoverNodeList c (n :: ns) =
      match recoverNode c n with
      | .ok (n2, c2) =>
        match recoverNodeList c2 ns with
        | .ok (ns2, c3) => .ok (n2 :: ns2, c3)
        | .error e => .error e
      | .error e => .error e := rfl

theorem recoverNode_obj (c : SbisFormatController) (f : Option Nat)
    (s : Option FormatList) (d : Option Node) :
    recoverNode c (Node.obj f s d) =
      if s.isSome || f.isSome then
        match (match s with
               | some v => (Except.ok v, c)
               | none =>
                 match f with
                 | some n => c.getFormat n
                 | none => (Except.error LookupError.couldNotFindFormatById, c)) with
        | (.error e, _) => .error e
        | (.ok v, c1) =>
          match d with
          | some dn =>
            match recoverNode c1 dn with
            | .ok (dn2, c2) => .ok (Node.obj none (some v) (some dn2), c2)
            | .error e => .error e
          | none => .ok (Node.obj none (some v) none, c1)
      else
        match d with
        | some dn =>
          match recoverNode c dn with
          | .ok (dn2, c2) => .ok (Node.obj f s (some dn2), c2)
          | .error e => .error e
        | none => .ok (Node.obj f s none, c) := by
  cases s <;> cases f <;> cases d <;> first | rfl | simp only [recoverNode]

theorem eachFormatEntry_prim : eachFormatEntry Node.prim = [] := rfl

theorem eachFormatEntry_arr (items : List Node) :
    eachFormatEntry (Node.arr items) = eachFormatEntryList items := rfl

theorem eachFormatEntry_obj (f : Option Nat) (s : Option FormatList) (d : Option Node) :
    eachFormatEntry (Node.obj f s d) =
      (if s.isSome || f.isSome then [(f, s)] else []) ++
      (match d with
       | some dn => eachFormatEntry dn
       | none => []) := by
  cases s <;> cases f <;> cases d <;> rfl

theorem eachFormatEntryList_nil : eachFormatEntryList [] = [] := rfl

theorem eachFormatEntryList_cons (n : Node) (ns : List Node) :
    eachFormatEntryList (n :: ns) = eachFormatEntry n ++ eachFormatEntryList ns := rfl

/-- The callback effect of recoverFormats on one carrier, as stated by
the specification: the f field is gone; a carrier that had an inline s
keeps it; a carrier that had only f now carries the structure getFormat
returns for that id on the given controller. -/
def recCarrier (c : SbisFormatController) :
    Option Nat × Option FormatList → Option Nat × Option FormatList → Prop :=
  fun e e2 =>
    e2.1 = none ∧
    match e.1, e.2 with
    | _, some v => e2.2 = some v
    | some m, none => ∃ v, e2.2 = some v ∧ (c.getFormat m).1 = Except.ok v
    | none, none => False

theorem recCarrier_congr (c c2 : SbisFormatController)
    (h : ∀ k, (c.getFormat k).1 = (c2.getFormat k).1) :
    ∀ e e2, recCarrier c e e2 → recCarrier c2 e e2 := by
  rintro ⟨fo, so⟩ e2 ⟨h1, h2⟩
  refine ⟨h1, ?_⟩
  cases fo <;> cases so
  · exact h2.elim
  · exact h2
  · obtain ⟨v, hv, hgf⟩ := h2
    exact ⟨v, hv, by rw [← h _]; exact hgf⟩
  · exact h2

theorem forall2_implies_right {α β : Type} {R : α → β → Prop} {Q : β → Prop}
    (hQ : ∀ a b, R a b → Q b) :
    ∀ {l1 : List α} {l2 : List β}, List.Forall₂ R l1 l2 → ∀ b ∈ l2, Q b := by
  intro l1 l2 h
  induction h with
  | nil => intro b hb; cases hb
  | cons hab _ ih =>
    intro b hb
    rcases List.mem_cons.mp hb with h1 | h1
    · subst h1; exact hQ _ _ hab
    · exact ih b h1

/-- What a successful recovery establishes relative to its starting
controller. -/
def recoverOk (c : SbisFormatController) (n n2 : Node) (c2 : SbisFormatController) : Prop :=
  c2._generator = none ∧ c2._data = c._data ∧
  (∀ k, (c2.getFormat k).1 = (c.getFormat k).1) ∧
  List.Forall₂ (recCarrier c) (eachFormatEntry n) (eachFormatEntry n2)

/-- The same for a list of sibling nodes. -/
def recoverListOk (c : SbisFormatController) (l l2 : List Node)
    (c2 : SbisFormatController) : Prop :=
  c2._generator = none ∧ c2._data = c._data ∧
  (∀ k, (c2.getFormat k).1 = (c.getFormat k).1) ∧
  List.Forall₂ (recCarrier c) (eachFormatEntryList l) (eachFormatEntryList l2)

/-- Correctness of the recovery pass, jointly over nodes and sibling
lists: a successful recovery keeps the controller bound to the same
payload with no engine stored, never changes what the controller
answers, and rewrites the carrier list pointwise as recCarrier states. -/
theorem recoverNode_sound :
    (∀ (c : SbisFormatController) (n : Node), c._generator = none →
      ∀ n2 c2, recoverNode c n = .ok (n2, c2) → recoverOk c n n2 c2) ∧
    (∀ (c : SbisFormatController) (l : List Node), c._generator = none →
      ∀ l2 c2, recoverNodeList c l = .ok (l2, c2) → recoverListOk c l l2 c2) := by
  refine recoverNode.mutual_induct
    (fun c n => c._generator = none →
      ∀ n2 c2, recoverNode c n = .ok (n2, c2) → recoverOk c n n2 c2)
    (fun c l => c._generator = none →
      ∀ l2 c2, recoverNodeList c l = .ok (l2, c2) → recoverListOk c l l2 c2)
    ?_ ?_ ?_ ?_ ?_ ?_ ?_ ?_ ?_ ?_ ?_ ?_ ?_ ?_
  · -- prim
    intro c hg n2 c2 heq
    rw [recoverNode_prim] at heq
    injection heq with h
    injection h with ha hb
    subst ha; subst hb
    exact ⟨hg, rfl, fun k => rfl, by rw [eachFormatEntry_prim]; exact List.Forall₂.nil⟩
  · -- arr, list recovered
    intro c items items2 cl hlist IH2 hg n2 c2 heq
    rw [recoverNode_arr, hlist] at heq
    injection heq with h
    injection h with ha hb
    subst ha; subst hb
    obtain ⟨g1, g2, g3, g4⟩ := IH2 hg items2 cl hlist
    exact ⟨g1, g2, g3, by rw [eachFormatEntry_arr, eachFormatEntry_arr]; exact g4⟩
  · -- arr, list failed: contradicts the ok hypothesis
    intro c items e hlist _ hg n2 c2 heq
    rw [recoverNode_arr, hlist] at heq
    cases heq
  · -- obj carrier, resolution failed
    intro c f s d hguard e snd hres hg n2 c2 heq
    rw [recoverNode_obj] at heq
    simp [hguard, hres] at heq
  · -- obj carrier, resolved, nested data recovered
    intro c f s hguard v c1 hres dn dn2 cd hrec IH1 hg n2 c2 heq
    rw [recoverNode_obj, if_pos hguard, hres] at heq
    have heqA : (match recoverNode c1 dn with
                 | Except.ok (p, q) => Except.ok (Node.obj none (some v) (some p), q)
                 | Except.error e => Except.error e) = Except.ok (n2, c2) := heq
    rw [hrec] at heqA
    have heqB : Except.ok (Node.obj none (some v) (some dn2), cd) =
        (Except.ok (n2, c2) : Except LookupError (Node × SbisFormatController)) := heqA
    injection heqB with h
    injection h with ha hb
    subst ha; subst hb
    have key : c1._generator = none ∧ c1._data = c._data ∧
        (∀ k, (c1.getFormat k).1 = (c.getFormat k).1) ∧
        recCarrier c (f, s) (none, some v) := by
      cases s with
      | some w =>
        have hres2 : (Except.ok w, c) = (Except.ok v, c1) := hres
        injection hres2 with h1 h2
        injection h1 with h1
        subst h1; subst h2
        cases f <;> exact ⟨hg, rfl, fun k => rfl, ⟨rfl, rfl⟩⟩
      | none =>
        cases f with
        | some m =>
          have hres2 : c.getFormat m = (Except.ok v, c1) := hres
          have hv1 : (c.getFormat m).1 = Except.ok v := by rw [hres2]
          have hc1 : (c.getFormat m).2 = c1 := by rw [hres2]
          have hst := getFormat_state c m false
          refine ⟨by rw [← hc1, hst.2, hg], by rw [← hc1]; exact hst.1, ?_, rfl, v, rfl, hv1⟩
          intro k
          rw [← hc1]
          exact getFormat_stable c hg m false k false
        | none => simp at hguard
    obtain ⟨o1, o2, o3, o4⟩ := IH1 key.1 dn2 cd hrec
    refine ⟨o1, o2.trans key.2.1, fun k => (o3 k).trans (key.2.2.1 k), ?_⟩
    rw [eachFormatEntry_obj, eachFormatEntry_obj, if_pos hguard]
    rw [show ((some v : Option FormatList).isSome ||
      (none : Option Nat).isSome) = true from rfl]
    simp only [if_true]
    exact List.Forall₂.cons key.2.2.2
      (o4.imp (recCarrier_congr c1 c key.2.2.1))
  · -- obj carrier, resolved, nested data failed
    intro c f s hguard v c1 hres dn e hrec _ hg n2 c2 heq
    rw [recoverNode_obj, if_pos hguard, hres] at heq
    have heqA : (match recoverNode c1 dn with
                 | Except.ok (p, q) => Except.ok (Node.obj none (some v) (some p), q)
                 | Except.error e => Except.error e) = Except.ok (n2, c2) := heq
    rw [hrec] at heqA
    have heqB : (Except.error e : Except LookupError (Node × SbisFormatController)) =
        Except.ok (n2, c2) := heqA
    cases heqB
  · -- obj carrier, resolved, no nested data
    intro c f s hguard v c1 hres hg n2 c2 heq
    rw [recoverNode_obj] at heq
    rw [if_pos hguard, hres] at heq
    injection heq with h
    injection h with ha hb
    subst ha; subst hb
    have key : c1._generator = none ∧ c1._data = c._data ∧
        (∀ k, (c1.getFormat k).1 = (c.getFormat k).1) ∧
        recCarrier c (f, s) (none, some v) := by
      cases s with
      | some w =>
        have hres2 : (Except.ok w, c) = (Except.ok v, c1) := hres
        injection hres2 with h1 h2
        injection h1 with h1
        subst h1; subst h2
        cases f <;> exact ⟨hg, rfl, fun k => rfl, ⟨rfl, rfl⟩⟩
      | none =>
        cases f with
        | some m =>
          have hres2 : c.getFormat m = (Except.ok v, c1) := hres
          have hv1 : (c.getFormat m).1 = Except.ok v := by rw [hres2]
          have hc1 : (c.getFormat m).2 = c1 := by rw [hres2]
          have hst := getFormat_state c m false
          refine ⟨by rw [← hc1, hst.2, hg], by rw [← hc1]; exact hst.1, ?_, rfl, v, rfl, hv1⟩
          intro k
          rw [← hc1]
          exact getFormat_stable c hg m false k false
        | none => simp at hguard
    refine ⟨key.1, key.2.1, key.2.2.1, ?_⟩
    rw [eachFormatEntry_obj, eachFormatEntry_obj, if_pos hguard]
    rw [show ((some v : Option FormatList).isSome ||
      (none : Option Nat).isSome) = true from rfl]
    simp only [if_true]
    exact List.Forall₂.cons key.2.2.2 List.Forall₂.nil
  · -- obj non-carrier with nested data, recovered
    intro c f s hng dn dn2 cd hrec IH1 hg n2 c2 heq
    rw [recoverNode_obj, if_neg hng] at heq
    have heqA : (match recoverNode c dn with
                 | Except.ok (p, q) => Except.ok (Node.obj f s (some p), q)
                 | Except.error e => Except.error e) = Except.ok (n2, c2) := heq
    rw [hrec] at heqA
    have heqB : Except.ok (Node.obj f s (some dn2), cd) =
        (Except.ok (n2, c2) : Except LookupError (Node × SbisFormatController)) := heqA
    injection heqB with h
    injection h with ha hb
    subst ha; subst hb
    obtain ⟨o1, o2, o3, o4⟩ := IH1 hg dn2 cd hrec
    refine ⟨o1, o2, o3, ?_⟩
    rw [eachFormatEntry_obj, eachFormatEntry_obj, if_neg hng]
    exact o4
  · -- obj non-carrier with nested data, failed
    intro c f s hng dn e hrec _ hg n2 c2 heq
    rw [recoverNode_obj, if_neg hng] at heq
    have heqA : (match recoverNode c dn with
                 | Except.ok (p, q) => Except.ok (Node.obj f s (some p), q)
                 | Except.error e => Except.error e) = Except.ok (n2, c2) := heq
    rw [hrec] at heqA
    have heqB : (Except.error e : Except LookupError (Node × SbisFormatController)) =
        Except.ok (n2, c2) := heqA
    cases heqB
  · -- obj non-carrier, no nested data
    intro c f s hng hg n2 c2 heq
    rw [recoverNode_obj, if_neg hng] at heq
    injection heq with h
    injection h with ha hb
    subst ha; subst hb
    refine ⟨hg, rfl, fun k => rfl, ?_⟩
    rw [eachFormatEntry_obj, if_neg hng]
    exact List.Forall₂.nil
  · -- nil
    intro c hg l2 c2 heq
    rw [recoverNodeList_nil] at heq
    injection heq with h
    injection h with ha hb
    subst ha; subst hb
    exact ⟨hg, rfl, fun k => rfl, by rw [eachFormatEntryList_nil]; exact List.Forall₂.nil⟩
  · -- cons, both recovered
    intro c n ns n2 cn hrecn items2 cl hlist IH1 IH2 hg l2 c2 heq
    rw [recoverNodeList_cons, hrecn] at heq
    have heqA : (match recoverNodeList cn ns with
                 | Except.ok (p, q) => Except.ok (n2 :: p, q)
                 | Except.error e => Except.error e) = Except.ok (l2, c2) := heq
    rw [hlist] at heqA
    have heqB : Except.ok (n2 :: items2, cl) =
        (Except.ok (l2, c2) : Except LookupError (List Node × SbisFormatController)) := heqA
    injection heqB with h
    injection h with ha hb
    subst ha; subst hb
    obtain ⟨o1, o2, o3, o4⟩ := IH1 hg n2 cn hrecn
    obtain ⟨p1, p2, p3, p4⟩ := IH2 o1 items2 cl hlist
    refine ⟨p1, p2.trans o2, fun k => (p3 k).trans (o3 k), ?_⟩
    rw [eachFormatEntryList_cons, eachFormatEntryList_cons]
    exact List.rel_append o4 (p4.imp (recCarrier_congr cn c o3))
  · -- cons, tail failed
    intro c n ns n2 cn hrecn e hlist _ _ hg l2 c2 heq
    rw [recoverNodeList_cons, hrecn] at heq
    have heqA : (match recoverNodeList cn ns with
                 | Except.ok (p, q) => Except.ok (n2 :: p, q)
                 | Except.error e => Except.error e) = Except.ok (l2, c2) := heq
    rw [hlist] at heqA
    have heqB : (Except.error e : Except LookupError (List Node × SbisFormatController)) =
        Except.ok (l2, c2) := heqA
    cases heqB
  · -- cons, head failed
    intro c n ns e hrecn _ hg l2 c2 heq
    rw [recoverNodeList_cons, hrecn] at heq
    cases heq

/-- C5: a successful recoverData pass returns the payload rewritten so
that no carrier keeps an f field, carriers that had an inline s keep it,
and every carrier that had f without s now carries exactly the structure
the given controller's getFormat returns for that id (the first-declared
format); the carriers correspond one to one, in document order.  The
engine-slot hypothesis holds for every controller the source can build,
since nothing ever assigns the _generator field. -/
theorem recoverData_resolves_and_strips (P : Node) (ctrl : Option SbisFormatController)
    (P2 : Node) (c2 : SbisFormatController)
    (hg : (ctrl.getD (SbisFormatController.new P))._generator = none)
    (hok : SbisFormatController.recoverData P ctrl = .ok (P2, c2)) :
    (∀ e ∈ eachFormatEntry P2, e.1 = (none : Option Nat)) ∧
    List.Forall₂ (recCarrier (ctrl.getD (SbisFormatController.new P)))
      (eachFormatEntry P) (eachFormatEntry P2) := by
  have hsound := recoverNode_sound.1 (ctrl.getD (SbisFormatController.new P)) P hg P2 c2 hok
  exact ⟨forall2_implies_right (fun a b hr => hr.1) hsound.2.2.2, hsound.2.2.2⟩

/-- The expected rewriting of the scenario payload: the duplicate
reference to id 1 now carries the first-declared structure inline. -/
def demoRecovered : Node :=
  .arr [.obj none (some [⟨"id"⟩])
    (some (.arr [.obj none (some [⟨"x"⟩]) none, .obj none (some [⟨"id"⟩]) none]))]

/-- C5 witness: recovering the scenario payload with the default
controller yields exactly demoRecovered, whose carriers all lost f and
whose f-only carrier gained the structure getFormat 1 returns. -/
theorem recoverData_resolves_and_strips_witness :
    (∀ e ∈ eachFormatEntry demoRecovered, e.1 = (none : Option Nat)) ∧
    List.Forall₂ (recCarrier (SbisFormatController.new demoPayload))
      (eachFormatEntry demoPayload) (eachFormatEntry demoRecovered) :=
  recoverData_resolves_and_strips demoPayload none demoRecovered
    { _cache := [(1, [⟨"id"⟩])], _data := demoPayload, _generator := none } rfl rfl

/-- A heap of JavaScript array objects (field lists), address to
contents, with a bump allocator.  It makes the object identity of the
lists visible, which the value model above cannot express, so that the
aliasing discipline of _clone (format.slice(), line 326) can be
verified: which array object getFormat hands to its caller. -/
structure FormatHeap where
  mem : List (Nat × FormatList)
  nextAddr : Nat
deriving Repr

/-- Contents stored at an address. -/
def FormatHeap.read (h : FormatHeap) (a : Nat) : FormatList :=
  (cacheFind h.mem a).getD []

/-- In-place mutation of the array at an address. -/
def FormatHeap.write (h : FormatHeap) (a : Nat) (v : FormatList) : FormatHeap :=
  { h with mem := (a, v) :: h.mem }

/-- Allocation of a fresh array object with the given contents - what
format.slice() does. -/
def FormatHeap.alloc (h : FormatHeap) (v : FormatList) : Nat × FormatHeap :=
  (h.nextAddr, { mem := (h.nextAddr, v) :: h.mem, nextAddr := h.nextAddr + 1 })

/-- id-to-address lookup for the refined cache. -/
def aliasedLookup : List (Nat × Nat) → Nat → Option Nat
  | [], _ => none
  | (k, a) :: rest, n => if k = n then some a else aliasedLookup rest n

/-- The controller state refined so that the cache maps a format id to
the address of the array object it owns. -/
structure AliasedController where
  cacheRef : List (Nat × Nat)
  heap : FormatHeap

/-- getFormat (lines 290-302) over the refined state, returning the
address of the array handed to the caller.  resolve abstracts the
traversal outcome for an uncached id (the first-declared structure, as
established by getFormat_eq for the value model); a successful miss
allocates the payload array into the heap and caches its address, as
storage.set stores a reference to the payload-owned array.  With copy
set, _clone allocates a fresh array holding the same contents; without
it the cached array itself is returned. -/
def AliasedController.getFormatRef (c : AliasedController)
    (resolve : Nat → Option FormatList) (id : Nat) (copy : Bool) :
    Option (Nat × AliasedController) :=
  match aliasedLookup c.cacheRef id with
  | some a =>
    if copy then
      let p := c.heap.alloc (c.heap.read a)
      some (p.1, { c with heap := p.2 })
    else some (a, c)
  | none =>
    match resolve id with
    | none => none
    | some v =>
      let p := c.heap.alloc v
      let c1 : AliasedController := { cacheRef := (id, p.1) :: c.cacheRef, heap := p.2 }
      if copy then
        let q := c1.heap.alloc (c1.heap.read p.1)
        some (q.1, { c1 with heap := q.2 })
      else some (p.1, c1)

/-- Well-formedness: every cached address was allocated. -/
def AliasedController.wf (c : AliasedController) : Prop :=
  ∀ k a, aliasedLookup c.cacheRef k = some a → a < c.heap.nextAddr

theorem aliasedLookup_of_cons (k a : Nat) (rest : List (Nat × Nat)) (n b : Nat)
    (h : aliasedLookup ((k, a) :: rest) n = some b) :
    (k = n ∧ a = b) ∨ aliasedLookup rest n = some b := by
  by_cases hk : k = n
  · left
    refine ⟨hk, ?_⟩
    simpa [aliasedLookup, hk] using h
  · right
    simpa [aliasedLookup, hk] using h

/-- C7: for every resolvable id, getFormat with copy hands back a fresh
array object: its contents equal the cached canonical array, its address
differs from the cached address, and however the caller mutates the
returned array, a later getFormat without copy still returns the
canonical array with its contents untouched. -/
theorem getFormat_copy_isolated (c : AliasedController)
    (resolve : Nat → Option FormatList) (id : Nat)
    (hwf : c.wf) (a2 : Nat) (c2 : AliasedController)
    (hcopy : c.getFormatRef resolve id true = some (a2, c2)) :
    ∃ a0, aliasedLookup c2.cacheRef id = some a0 ∧ a0 ≠ a2 ∧
      c2.heap.read a2 = c2.heap.read a0 ∧
      ∀ v, AliasedController.getFormatRef { c2 with heap := c2.heap.write a2 v }
          resolve id false =
          some (a0, { c2 with heap := c2.heap.write a2 v }) ∧
        FormatHeap.read ({ c2 with heap := c2.heap.write a2 v }).heap a0 =
          c2.heap.read a0 := by
  cases hc : aliasedLookup c.cacheRef id with
  | some a =>
    have hlt : a < c.heap.nextAddr := hwf id a hc
    have hne : c.heap.nextAddr ≠ a := by omega
    have hstep : c.getFormatRef resolve id true =
        some (c.heap.nextAddr,
          ⟨c.cacheRef, ⟨(c.heap.nextAddr, c.heap.read a) :: c.heap.mem,
            c.heap.nextAddr + 1⟩⟩) := by
      simp [AliasedController.getFormatRef, hc, FormatHeap.alloc]
    rw [hstep] at hcopy
    injection hcopy with h
    injection h with ha hb
    subst ha; subst hb
    refine ⟨a, hc, by omega, ?_, ?_⟩
    · simp [FormatHeap.read, cacheFind, hne]
    · intro v
      refine ⟨?_, ?_⟩
      · simp [AliasedController.getFormatRef, hc]
      · simp [FormatHeap.read, FormatHeap.write, cacheFind, hne]
  | none =>
    cases hr : resolve id with
    | none => simp [AliasedController.getFormatRef, hc, hr] at hcopy
    | some v0 =>
      have hstep : c.getFormatRef resolve id true =
          some (c.heap.nextAddr + 1,
            ⟨(id, c.heap.nextAddr) :: c.cacheRef,
             ⟨(c.heap.nextAddr + 1, v0) :: (c.heap.nextAddr, v0) :: c.heap.mem,
              c.heap.nextAddr + 2⟩⟩) := by
        simp [AliasedController.getFormatRef, hc, hr, FormatHeap.alloc,
          FormatHeap.read, cacheFind]
      rw [hstep] at hcopy
      injection hcopy with h
      injection h with ha hb
      subst ha; subst hb
      have hne1 : c.heap.nextAddr + 1 ≠ c.heap.nextAddr := by omega
      refine ⟨c.heap.nextAddr, by simp [aliasedLookup], by omega, ?_, ?_⟩
      · simp [FormatHeap.read, cacheFind, hne1]
      · intro v
        refine ⟨?_, ?_⟩
        · simp [AliasedController.getFormatRef, aliasedLookup]
        · simp [FormatHeap.read, FormatHeap.write, cacheFind, hne1]

/-- C7 witness: on a one-entry cache the copying lookup of id 4 returns
a fresh address whose mutation leaves the canonical entry intact. -/
theorem getFormat_copy_isolated_witness :
    AliasedController.getFormatRef ⟨[(4, 0)], ⟨[(0, [⟨"n"⟩])], 1⟩⟩
        (fun _ => none) 4 true =
      some (1, ⟨[(4, 0)], ⟨[(1, [⟨"n"⟩]), (0, [⟨"n"⟩])], 2⟩⟩) ∧
    ∃ a0, aliasedLookup
        (AliasedController.cacheRef ⟨[(4, 0)], ⟨[(1, [⟨"n"⟩]), (0, [⟨"n"⟩])], 2⟩⟩) 4 =
        some a0 ∧ a0 ≠ 1 ∧
      FormatHeap.read ⟨[(1, [⟨"n"⟩]), (0, [⟨"n"⟩])], 2⟩ 1 =
        FormatHeap.read ⟨[(1, [⟨"n"⟩]), (0, [⟨"n"⟩])], 2⟩ a0 ∧
      ∀ v, AliasedController.getFormatRef
          { (⟨[(4, 0)], ⟨[(1, [⟨"n"⟩]), (0, [⟨"n"⟩])], 2⟩⟩ : AliasedController) with
            heap := FormatHeap.write ⟨[(1, [⟨"n"⟩]), (0, [⟨"n"⟩])], 2⟩ 1 v }
          (fun _ => none) 4 false =
        some (a0, { (⟨[(4, 0)], ⟨[(1, [⟨"n"⟩]), (0, [⟨"n"⟩])], 2⟩⟩ : AliasedController) with
          heap := FormatHeap.write ⟨[(1, [⟨"n"⟩]), (0, [⟨"n"⟩])], 2⟩ 1 v }) ∧
        FormatHeap.read ({ (⟨[(4, 0)], ⟨[(1, [⟨"n"⟩]), (0, [⟨"n"⟩])], 2⟩⟩ :
            AliasedController) with
          heap := FormatHeap.write ⟨[(1, [⟨"n"⟩]), (0, [⟨"n"⟩])], 2⟩ 1 v }).heap a0 =
          FormatHeap.read ⟨[(1, [⟨"n"⟩]), (0, [⟨"n"⟩])], 2⟩ a0 :=
  ⟨rfl, getFormat_copy_isolated ⟨[(4, 0)], ⟨[(0, [⟨"n"⟩])], 1⟩⟩ (fun _ => none) 4
    (by
      intro k a h
      simp [aliasedLookup] at h
      show a < 1
      omega) 1
    ⟨[(4, 0)], ⟨[(1, [⟨"n"⟩]), (0, [⟨"n"⟩])], 2⟩⟩ rfl⟩
